import Mathlib

/-!
Verification of the Corks-SIE synchronization and reconciliation core.

The definitions below are shallow embeddings of the TypeScript sources:
  - src/services/wp.ts          (attendee name resolution, scheduler, orchestrator)
  - src/services/storage.ts     (local cache store: attendee merge, sync state)
  - src/services/wooOrdersService.ts and paymentsService.ts (order reconciler)
  - src/services/wpClient.ts    (pagination helper)
  - src/pages/EventDetail.tsx   (revenue aggregator)

Modelling conventions: JavaScript strings are `String`; nullable / possibly
undefined values are `Option`; machine floats used for money are `ℚ`;
timestamps (epoch milliseconds) are `ℕ`; JavaScript objects used as finite
maps are association lists `List (ℕ × β)` or total functions with a default.
-/

set_option autoImplicit false

namespace CorksSIE

/-! ## String primitives

Lean core implements `String.trim`, `String.split`, `String.splitOn` and
`String.map` by well-founded recursion on byte positions, which the kernel
cannot evaluate; the JavaScript string operations used by the sources are
therefore embedded directly over the character list `String.data`. -/

/-- JavaScript `s.trim()`: drop whitespace from both ends. -/
def jsTrim (s : String) : String :=
  String.mk (((s.data.dropWhile Char.isWhitespace).reverse.dropWhile Char.isWhitespace).reverse)

/-- JavaScript `s.toUpperCase()` (ASCII letters, as exercised by the source). -/
def jsToUpper (s : String) : String :=
  String.mk (s.data.map Char.toUpper)

/-- `e.split('@')[0]`: the prefix of the string before the first `@` (the
whole string when there is none). -/
def localPartOf (e : String) : String :=
  String.mk (e.data.takeWhile (· ≠ '@'))

/-- The maximal non-whitespace runs of a string.  The source performs
`s.replace(/\s+/g, ' ').trim()` and later `split(' ')`; the collapse rejoins
exactly these runs with single spaces and the split recovers them, so the
pair of operations is modelled by the run list itself. -/
def wordsOf (s : String) : List String :=
  ((s.data.splitOnP Char.isWhitespace).filter (· ≠ [])).map String.mk

/-! ## Name resolution (src/services/wp.ts, fetchAttendeesForEvent) -/

/-- `normalize` from wp.ts: trim the string, and treat the empty string and the
literal "N/A" (compared after `toUpperCase()`) as empty; `null`/`undefined`
becomes empty as well. -/
def normalizeStr : Option String → String
  | none => ""
  | some v =>
    let s := jsTrim v
    if s = "" then "" else if jsToUpper s = "N/A" then "" else s

/-- JavaScript `a || b` on two optional strings: `undefined` and `""` are
falsy, any other string is truthy. -/
def jsOrOpt (a b : Option String) : Option String :=
  match a with
  | some s => if s = "" then b else some s
  | none => b

/-- JavaScript `a || b` on two already-normalized strings (falsy = empty). -/
def firstTruthy (a b : String) : String :=
  if a = "" then b else a

/-- Step 1 of `prettifyEmailLocalPart`: `local.replace(/[._-]/g, ' ')`
replaces each of the three separator characters by a space. -/
def sepToSpace (c : Char) : Char :=
  if c = '.' ∨ c = '_' ∨ c = '-' then ' ' else c

/-- `w.charAt(0).toUpperCase() + w.slice(1).toLowerCase()` from step 3 of
`prettifyEmailLocalPart`. -/
def titleCaseWord (w : String) : String :=
  match w.data with
  | [] => ""
  | c :: cs => String.mk (c.toUpper :: cs.map Char.toLower)

/-- `words.join(' ')`. -/
def joinWords : List String → String
  | [] => ""
  | [w] => w
  | w :: ws => w ++ " " ++ joinWords ws

/-- `prettifyEmailLocalPart` from wp.ts: normalize the email (empty gives the
literal "N/A"), take the part before the first `@`, replace separators by
spaces, collapse whitespace, and title-case each word; when the collapsed
string is empty (`s.length > 0` fails, i.e. the run list is empty) the raw
local part is returned unchanged. -/
def prettifyEmailLocalPart (email : Option String) : String :=
  let e := normalizeStr email
  if e = "" then "N/A"
  else
    let lp := localPartOf e
    let ws := wordsOf (String.mk (lp.data.map sepToSpace))
    if ws ≠ [] then joinWords (ws.map titleCaseWord)
    else lp

/-- One raw attendee item as consumed by the name resolver; every field the
resolver reads may be absent. -/
structure RawAttendeeItem where
  title : Option String := none
  purchaser_name : Option String := none
  full_name : Option String := none
  name : Option String := none
  billing_first_name : Option String := none
  billing_last_name : Option String := none
  email : Option String := none
  purchaser_email : Option String := none
  deriving Repr, DecidableEq

/-- Priority 2 of `getAttendeeDisplayName`:
`normalize(i.purchaser_name) || normalize(i.full_name) || normalize(i.name)`. -/
def compositeName (i : RawAttendeeItem) : String :=
  firstTruthy (firstTruthy (normalizeStr i.purchaser_name) (normalizeStr i.full_name))
    (normalizeStr i.name)

/-- The email value the resolver falls back to: `i.email || i.purchaser_email`. -/
def emailField (i : RawAttendeeItem) : Option String :=
  jsOrOpt i.email i.purchaser_email

/-- `getAttendeeDisplayName` from wp.ts; the early returns of the source are
the nested conditionals here. -/
def getAttendeeDisplayName (i : RawAttendeeItem) : String :=
  if normalizeStr i.title ≠ "" then normalizeStr i.title
  else if compositeName i ≠ "" then compositeName i
  else if normalizeStr i.billing_first_name ≠ "" ∧ normalizeStr i.billing_last_name ≠ "" then
    normalizeStr i.billing_first_name ++ " " ++ normalizeStr i.billing_last_name
  else prettifyEmailLocalPart (emailField i)

/-- The prettified email local part exactly as the specification words it:
replace `.`, `_`, `-` with spaces, collapse whitespace, title-case each
word. -/
def specPrettifiedLocalPart (email : String) : String :=
  joinWords ((wordsOf (String.mk ((localPartOf email).data.map sepToSpace))).map titleCaseWord)

theorem titleCaseWord_ne_empty {w : String} (h : w ≠ "") : titleCaseWord w ≠ "" := by
  unfold titleCaseWord
  match hw : w.data with
  | [] =>
    exfalso
    apply h
    cases w with
    | mk d =>
      have hd : d = [] := hw
      subst hd
      rfl
  | c :: cs =>
    simp only
    intro hmk
    have hlen := congrArg String.length hmk
    rw [String.length_mk, String.length_empty] at hlen
    simp at hlen

theorem joinWords_cons_ne_empty {w : String} {ws : List String} (h : w ≠ "") :
    joinWords (w :: ws) ≠ "" := by
  cases ws with
  | nil => simpa [joinWords] using h
  | cons x xs =>
    show w ++ " " ++ joinWords (x :: xs) ≠ ""
    intro hcontr
    have hd := congrArg String.data hcontr
    rw [String.data_append, String.data_append] at hd
    have hsp : (" " : String).data = [' '] := rfl
    have hem : ("" : String).data = ([] : List Char) := rfl
    rw [hsp, hem] at hd
    simp at hd

theorem mem_wordsOf_ne_empty {s : String} {w : String} (h : w ∈ wordsOf s) : w ≠ "" := by
  unfold wordsOf at h
  rcases List.mem_map.mp h with ⟨l, hl, rfl⟩
  have hne := List.of_mem_filter hl
  intro hmk
  apply (by simpa using hne : l ≠ [])
  have := congrArg String.data hmk
  simpa using this

/-- The specification-side prettified local part is non-empty exactly when the
collapsed word list is non-empty. -/
theorem specPrettified_ne_empty_iff (email : String) :
    specPrettifiedLocalPart email ≠ "" ↔
      wordsOf (String.mk ((localPartOf email).data.map sepToSpace)) ≠ [] := by
  unfold specPrettifiedLocalPart
  cases hcase : wordsOf (String.mk ((localPartOf email).data.map sepToSpace)) with
  | nil => simp [hcase, joinWords]
  | cons w ws =>
    have hw : w ≠ "" := mem_wordsOf_ne_empty (by rw [hcase]; exact List.mem_cons_self _ _)
    simp only [List.map_cons]
    constructor
    · intro _; simp
    · intro _; exact joinWords_cons_ne_empty (titleCaseWord_ne_empty hw)

/-- When the collapsed local part is non-empty, the source and the
specification compute the same prettified name. -/
theorem prettify_eq_spec (email : Option String) (hne : normalizeStr email ≠ "")
    (hws : specPrettifiedLocalPart (normalizeStr email) ≠ "") :
    prettifyEmailLocalPart email = specPrettifiedLocalPart (normalizeStr email) := by
  have hws' := (specPrettified_ne_empty_iff (normalizeStr email)).mp hws
  simp only [prettifyEmailLocalPart]
  rw [if_neg hne, if_pos hws']
  simp only [specPrettifiedLocalPart]

/-- Claim C1: the resolved display name is the first non-empty result (after
the normalization that trims and blanks literal "N/A") of: (1) the title
field; (2) the alternate full-name fields purchaser_name, full_name, name;
(3) "first last" from the billing fields, only when both are non-empty;
(4) the prettified email local part; and it is exactly "N/A" when the email
is also empty.  The four tier-exercising inputs give the title, the
composite, "First Last" and "Jane Doe". -/
theorem c1_name_resolution_policy :
    (∀ i : RawAttendeeItem, normalizeStr i.title ≠ "" →
        getAttendeeDisplayName i = normalizeStr i.title)
  ∧ (∀ i : RawAttendeeItem, normalizeStr i.title = "" → compositeName i ≠ "" →
        getAttendeeDisplayName i = compositeName i)
  ∧ (∀ i : RawAttendeeItem, normalizeStr i.title = "" → compositeName i = "" →
        normalizeStr i.billing_first_name ≠ "" → normalizeStr i.billing_last_name ≠ "" →
        getAttendeeDisplayName i =
          normalizeStr i.billing_first_name ++ " " ++ normalizeStr i.billing_last_name)
  ∧ (∀ i : RawAttendeeItem, normalizeStr i.title = "" → compositeName i = "" →
        (normalizeStr i.billing_first_name = "" ∨ normalizeStr i.billing_last_name = "") →
        normalizeStr (emailField i) ≠ "" →
        specPrettifiedLocalPart (normalizeStr (emailField i)) ≠ "" →
        getAttendeeDisplayName i = specPrettifiedLocalPart (normalizeStr (emailField i)))
  ∧ (∀ i : RawAttendeeItem, normalizeStr i.title = "" → compositeName i = "" →
        (normalizeStr i.billing_first_name = "" ∨ normalizeStr i.billing_last_name = "") →
        normalizeStr (emailField i) = "" →
        getAttendeeDisplayName i = "N/A")
  ∧ getAttendeeDisplayName { title := some "The Title", purchaser_name := some "Composite Name" }
      = "The Title"
  ∧ getAttendeeDisplayName { purchaser_name := some "Composite Name" } = "Composite Name"
  ∧ getAttendeeDisplayName
      { billing_first_name := some "First", billing_last_name := some "Last" } = "First Last"
  ∧ getAttendeeDisplayName { email := some "jane.doe@x.com" } = "Jane Doe" := by
  refine ⟨?_, ?_, ?_, ?_, ?_, ?_, ?_, ?_, ?_⟩
  · intro i h1
    simp only [getAttendeeDisplayName]
    rw [if_pos h1]
  · intro i h1 h2
    simp only [getAttendeeDisplayName]
    rw [if_neg (by simpa using h1), if_pos h2]
  · intro i h1 h2 h3 h4
    simp only [getAttendeeDisplayName]
    rw [if_neg (by simpa using h1), if_neg (by simpa using h2), if_pos ⟨h3, h4⟩]
  · intro i h1 h2 h3 h4 h5
    have hb : ¬ (normalizeStr i.billing_first_name ≠ "" ∧ normalizeStr i.billing_last_name ≠ "") := by
      rcases h3 with h3 | h3 <;> simp [h3]
    simp only [getAttendeeDisplayName]
    rw [if_neg (by simpa using h1), if_neg (by simpa using h2), if_neg hb]
    exact prettify_eq_spec (emailField i) h4 h5
  · intro i h1 h2 h3 h4
    have hb : ¬ (normalizeStr i.billing_first_name ≠ "" ∧ normalizeStr i.billing_last_name ≠ "") := by
      rcases h3 with h3 | h3 <;> simp [h3]
    simp only [getAttendeeDisplayName]
    rw [if_neg (by simpa using h1), if_neg (by simpa using h2), if_neg hb]
    simp only [prettifyEmailLocalPart]
    rw [if_pos h4]
  · decide
  · decide
  · decide
  · decide

/-- Witness for claim C1: the first tier applied at a concrete item whose
title carries surrounding whitespace. -/
theorem c1_name_resolution_policy_witness :
    getAttendeeDisplayName { title := some "  Alice  " } =
      normalizeStr (RawAttendeeItem.title { title := some "  Alice  " }) :=
  c1_name_resolution_policy.1 { title := some "  Alice  " } (by decide)

/-! ## Sync scheduler (src/services/wp.ts, SyncScheduler) -/

/-- `SyncScheduler.shouldRunDailyFullSync`.  `today` and `hour` stand for the
values of `getBucharestDate()` and `getBucharestHour()`: the calendar date
and hour-of-day of the current instant projected into the Europe/Bucharest
time zone by `Intl.DateTimeFormat` (the projection is host functionality,
not part of the sources). -/
def shouldRunDailyFullSync (lastRunDate today : String) (hour : ℕ) : Bool :=
  decide (lastRunDate ≠ today ∧ 7 ≤ hour)

/-- `SyncScheduler.shouldRunDeltaSync`: true when no prior run is recorded or
more than 15 minutes elapsed since it.  A future `lastRunUtc` yields a
negative difference in JavaScript and a truncated zero here; both fail the
threshold test. -/
def shouldRunDeltaSync (lastRunUtc : Option ℕ) (nowUtc : ℕ) : Bool :=
  match lastRunUtc with
  | none => true
  | some t => decide (15 * 60 * 1000 < nowUtc - t)

/-- Claim C6: `shouldRunDailyFullSync` is true iff the stored date differs
from the current Europe/Bucharest date and the Europe/Bucharest hour is at
least 7; it depends on nothing else. -/
theorem c6_daily_full_sync_gate (lastRunDate today : String) (hour : ℕ) :
    shouldRunDailyFullSync lastRunDate today hour = true ↔
      (lastRunDate ≠ today ∧ 7 ≤ hour) := by
  simp [shouldRunDailyFullSync]

/-- Witness for claim C6 at a concrete date pair and hour. -/
theorem c6_daily_full_sync_gate_witness :
    shouldRunDailyFullSync "2026-10-10" "2026-10-11" 9 = true :=
  (c6_daily_full_sync_gate "2026-10-10" "2026-10-11" 9).mpr (by decide)

/-! ## Sync-state store (src/services/storage.ts) -/

/-- `SyncState` from src/types.ts; every field is optional. -/
structure SyncState where
  lastFullSyncUtc : Option ℕ := none
  lastDeltaSyncUtc : Option ℕ := none
  lastSeenTotal : Option ℕ := none
  deriving Repr, DecidableEq

/-- A `Partial<SyncState>` update object: `none` means the field is absent
from the update; `some none` is a field explicitly present with an
`undefined` value (as happens for `lastSeenTotal`). -/
structure SyncStateUpdate where
  lastFullSyncUtc : Option (Option ℕ) := none
  lastDeltaSyncUtc : Option (Option ℕ) := none
  lastSeenTotal : Option (Option ℕ) := none
  deriving Repr, DecidableEq

/-- The object spread `{ ...(map[eventId] || {}), ...newState }`: fields
present in the update win, all other fields are carried over. -/
def mergeSyncState (cur : SyncState) (upd : SyncStateUpdate) : SyncState where
  lastFullSyncUtc := upd.lastFullSyncUtc.getD cur.lastFullSyncUtc
  lastDeltaSyncUtc := upd.lastDeltaSyncUtc.getD cur.lastDeltaSyncUtc
  lastSeenTotal := upd.lastSeenTotal.getD cur.lastSeenTotal

/-- `updateSyncState` from storage.ts.  The JSON map object is modelled as a
total function whose default value is the `{}` that `getSyncState` returns
for unknown event ids. -/
def updateSyncState (m : ℕ → SyncState) (eventId : ℕ) (newState : SyncStateUpdate) :
    ℕ → SyncState :=
  fun k => if k = eventId then mergeSyncState (m eventId) newState else m k

/-- `GlobalSyncState`; the empty-string initial value of the delta timestamp
is modelled as `none`. -/
structure GlobalSyncState where
  lastDailyFullSyncDate : String := ""
  lastDeltaSyncRunUtc : Option ℕ := none
  deriving Repr, DecidableEq

/-- A `Partial<GlobalSyncState>` update object. -/
structure GlobalSyncStateUpdate where
  lastDailyFullSyncDate : Option String := none
  lastDeltaSyncRunUtc : Option (Option ℕ) := none
  deriving Repr, DecidableEq

/-- `updateGlobalSyncState` from storage.ts: `{ ...current, ...updates }`. -/
def updateGlobalSyncState (current : GlobalSyncState) (updates : GlobalSyncStateUpdate) :
    GlobalSyncState where
  lastDailyFullSyncDate := updates.lastDailyFullSyncDate.getD current.lastDailyFullSyncDate
  lastDeltaSyncRunUtc := updates.lastDeltaSyncRunUtc.getD current.lastDeltaSyncRunUtc

/-- Claim C10: sync-state updates are frame-preserving partial merges — for
the per-event map, only the targeted event id changes, and only the fields
present in the update change (fields present are set to the update value);
the global merge likewise leaves every unmentioned field unchanged. -/
theorem c10_sync_state_frame :
    (∀ (m : ℕ → SyncState) (eid k : ℕ) (u : SyncStateUpdate), k ≠ eid →
        updateSyncState m eid u k = m k)
  ∧ (∀ (m : ℕ → SyncState) (eid : ℕ) (u : SyncStateUpdate),
        (u.lastFullSyncUtc = none →
          (updateSyncState m eid u eid).lastFullSyncUtc = (m eid).lastFullSyncUtc)
      ∧ (u.lastDeltaSyncUtc = none →
          (updateSyncState m eid u eid).lastDeltaSyncUtc = (m eid).lastDeltaSyncUtc)
      ∧ (u.lastSeenTotal = none →
          (updateSyncState m eid u eid).lastSeenTotal = (m eid).lastSeenTotal))
  ∧ (∀ (m : ℕ → SyncState) (eid : ℕ) (u : SyncStateUpdate) (v : Option ℕ),
        (u.lastFullSyncUtc = some v → (updateSyncState m eid u eid).lastFullSyncUtc = v)
      ∧ (u.lastDeltaSyncUtc = some v → (updateSyncState m eid u eid).lastDeltaSyncUtc = v)
      ∧ (u.lastSeenTotal = some v → (updateSyncState m eid u eid).lastSeenTotal = v))
  ∧ (∀ (g : GlobalSyncState) (u : GlobalSyncStateUpdate),
        (u.lastDailyFullSyncDate = none →
          (updateGlobalSyncState g u).lastDailyFullSyncDate = g.lastDailyFullSyncDate)
      ∧ (u.lastDeltaSyncRunUtc = none →
          (updateGlobalSyncState g u).lastDeltaSyncRunUtc = g.lastDeltaSyncRunUtc))
  ∧ (∀ (g : GlobalSyncState) (u : GlobalSyncStateUpdate),
        (∀ d, u.lastDailyFullSyncDate = some d →
          (updateGlobalSyncState g u).lastDailyFullSyncDate = d)
      ∧ (∀ v, u.lastDeltaSyncRunUtc = some v →
          (updateGlobalSyncState g u).lastDeltaSyncRunUtc = v)) := by
  refine ⟨?_, ?_, ?_, ?_, ?_⟩
  · intro m eid k u hk
    simp [updateSyncState, hk]
  · intro m eid u
    refine ⟨fun h => ?_, fun h => ?_, fun h => ?_⟩ <;>
      simp [updateSyncState, mergeSyncState, h]
  · intro m eid u v
    refine ⟨fun h => ?_, fun h => ?_, fun h => ?_⟩ <;>
      simp [updateSyncState, mergeSyncState, h]
  · intro g u
    refine ⟨fun h => ?_, fun h => ?_⟩ <;> simp [updateGlobalSyncState, h]
  · intro g u
    refine ⟨fun d h => ?_, fun v h => ?_⟩ <;> simp [updateGlobalSyncState, h]

/-- Witness for claim C10: a delta-only global update leaves the full-sync
date in place. -/
theorem c10_sync_state_frame_witness :
    (updateGlobalSyncState { lastDailyFullSyncDate := "2026-10-11" }
        { lastDeltaSyncRunUtc := some (some 5) }).lastDailyFullSyncDate = "2026-10-11" :=
  (c10_sync_state_frame.2.2.2.1 { lastDailyFullSyncDate := "2026-10-11" }
    { lastDeltaSyncRunUtc := some (some 5) }).1 rfl

/-! ## Core records (src/types.ts) -/

/-- The normalized attendee record produced by `fetchAttendeesForEvent`.
Ids and timestamps are numbers; `orderId` is optional because the raw field
may be absent. -/
structure AttendeeRecord where
  attendeeId : ℕ
  eventId : ℕ := 0
  ticketId : ℕ := 0
  orderId : Option ℕ := none
  fullName : String := ""
  email : String := ""
  createdUtc : ℕ := 0
  modifiedUtc : ℕ := 0
  checkedIn : Bool := false
  provider : String := ""
  isPurchaser : Bool := false
  price : ℚ := 0
  deriving Repr, DecidableEq

/-- `ManualStatus` from src/types.ts. -/
inductive ManualStatus
  | rezervat
  | confirmat
  | anulat
  | noshow
  | venit
  deriving Repr, DecidableEq

/-- A manual attendee, restricted to the fields the aggregators read. -/
structure ManualAttendee where
  name : String := ""
  quantity : ℕ := 1
  status : ManualStatus
  ticketPrice : Option ℚ := none
  deriving Repr, DecidableEq

/-- `WPTicketPayment` from src/types.ts (ids as numbers). -/
structure WPTicketPayment where
  wp_event_id : ℕ := 0
  wp_order_id : ℕ := 0
  wp_order_item_id : ℕ := 0
  qty : ℕ := 0
  currency : String := "RON"
  line_total_paid : ℚ := 0
  unit_price_paid : ℚ := 0
  line_subtotal : ℚ := 0
  discount_allocated : ℚ := 0
  coupon_codes : String := ""
  order_total : ℚ := 0
  paid_at : ℕ := 0
  deriving Repr, DecidableEq

/-- `WPEvent` from src/types.ts, with datetimes as epoch milliseconds. -/
structure WPEvent where
  id : String := ""
  wp_event_id : ℕ
  title : String := ""
  description : String := ""
  start_datetime : ℕ := 0
  price : Option ℚ := none
  event_type : String := ""
  wine_focus : String := ""
  capacity : Option ℕ := none
  last_synced_at : ℕ := 0
  extracted_wines : List String := []
  extracted_menu : List String := []
  deriving Repr, DecidableEq

/-! ## Revenue aggregator (src/pages/EventDetail.tsx, the `totals` memo) -/

/-- JavaScript `a || b` for an optional number: `undefined` and `0` are
falsy. -/
def jsOrQ (a : Option ℚ) (b : ℚ) : ℚ :=
  match a with
  | some v => if v = 0 then b else v
  | none => b

/-- `Math.round`: round half towards positive infinity. -/
def jsRound (q : ℚ) : ℤ :=
  Int.floor (q + 1 / 2)

/-- The status filter used both for the occupancy count and for the manual
revenue loop: status is one of REZERVAT, CONFIRMAT, VENIT. -/
def countsForRevenue (s : ManualStatus) : Bool :=
  match s with
  | .rezervat => true
  | .confirmat => true
  | .venit => true
  | _ => false

/-- The result object of the `totals` memo. -/
structure EventTotals where
  wp : ℕ
  manual : ℕ
  total : ℕ
  remaining : ℤ
  percent : ℤ
  overbooked : Bool
  cap : ℕ
  revenue : ℚ
  onlineRevenue : ℚ
  manualRevenue : ℚ
  deriving Repr, DecidableEq

/-- The `totals` computation of EventDetail.tsx (spec name
`computeEventTotals`).  `defaultCapacity` is the `DEFAULT_CAPACITY` constant,
whose defining module is not among the sources.  Division by a zero capacity
is rational-number junk (`0`) where JavaScript would produce `NaN`; it is
unreachable for a positive default capacity. -/
def computeEventTotals (defaultCapacity : ℕ) (event : WPEvent)
    (wpAttendees : List AttendeeRecord) (manualAttendees : List ManualAttendee)
    (payments : List WPTicketPayment) : EventTotals :=
  let wp := wpAttendees.length
  let manual := (manualAttendees.filter fun a => countsForRevenue a.status).foldl
    (fun sum a => sum + a.quantity) 0
  let total := wp + manual
  let cap : ℕ := match event.capacity with
    | some c => if c = 0 then defaultCapacity else c
    | none => defaultCapacity
  let remaining : ℤ := (cap : ℤ) - (total : ℤ)
  let percent := jsRound (((total : ℚ) / (cap : ℚ)) * 100)
  let overbooked := decide (cap < total)
  let onlineRevenue :=
    if payments.length > 0 then payments.foldl (fun sum p => sum + p.line_total_paid) 0
    else (wp : ℚ) * jsOrQ event.price 0
  let manualRevenue := manualAttendees.foldl
    (fun acc ma =>
      if countsForRevenue ma.status then
        acc + ma.ticketPrice.getD (event.price.getD 0) * (ma.quantity : ℚ)
      else acc) 0
  let revenue := onlineRevenue + manualRevenue
  { wp := wp, manual := manual, total := total, remaining := remaining, percent := percent,
    overbooked := overbooked, cap := cap, revenue := revenue,
    onlineRevenue := onlineRevenue, manualRevenue := manualRevenue }

theorem foldl_add_map {α M : Type} [AddCommMonoid M] (l : List α) (f : α → M) (init : M) :
    l.foldl (fun s a => s + f a) init = init + (l.map f).sum := by
  induction l generalizing init with
  | nil => simp
  | cons x xs ih => simp [ih, add_assoc]

theorem foldl_add_if {α M : Type} [AddCommMonoid M] (l : List α) (p : α → Bool)
    (f : α → M) (init : M) :
    l.foldl (fun s a => if p a then s + f a else s) init
      = init + ((l.filter p).map f).sum := by
  induction l generalizing init with
  | nil => simp
  | cons x xs ih =>
    cases hx : p x with
    | true => simp [hx, ih, add_assoc]
    | false => simp [hx, ih]

/-- Claim C2: online revenue is the sum of `line_total_paid` when payment
records exist and otherwise the online count times the list price; manual
revenue sums (override price, else list price, else 0) × quantity over
manual attendees with status in {rezervat, confirmat, venit}; total revenue
is their sum; and the concrete instance (list price 100, one confirmed
manual attendee qty 2 at override 80, one payment of 150) gives 150, 160 and
310. -/
theorem c2_revenue_totals :
    (∀ (dc : ℕ) (event : WPEvent) (wpA : List AttendeeRecord)
        (mA : List ManualAttendee) (pays : List WPTicketPayment), pays ≠ [] →
        (computeEventTotals dc event wpA mA pays).onlineRevenue
          = (pays.map (fun p => p.line_total_paid)).sum)
  ∧ (∀ (dc : ℕ) (event : WPEvent) (wpA : List AttendeeRecord) (mA : List ManualAttendee),
        (computeEventTotals dc event wpA mA []).onlineRevenue
          = (wpA.length : ℚ) * jsOrQ event.price 0)
  ∧ (∀ (dc : ℕ) (event : WPEvent) (wpA : List AttendeeRecord)
        (mA : List ManualAttendee) (pays : List WPTicketPayment),
        (computeEventTotals dc event wpA mA pays).manualRevenue
          = ((mA.filter fun a => countsForRevenue a.status).map
              (fun a => a.ticketPrice.getD (event.price.getD 0) * (a.quantity : ℚ))).sum)
  ∧ (∀ (dc : ℕ) (event : WPEvent) (wpA : List AttendeeRecord)
        (mA : List ManualAttendee) (pays : List WPTicketPayment),
        (computeEventTotals dc event wpA mA pays).revenue
          = (computeEventTotals dc event wpA mA pays).onlineRevenue
            + (computeEventTotals dc event wpA mA pays).manualRevenue)
  ∧ ((computeEventTotals 36 { wp_event_id := 1, price := some 100 } []
        [{ status := .confirmat, quantity := 2, ticketPrice := some 80 }]
        [{ line_total_paid := 150 }]).onlineRevenue = 150
    ∧ (computeEventTotals 36 { wp_event_id := 1, price := some 100 } []
        [{ status := .confirmat, quantity := 2, ticketPrice := some 80 }]
        [{ line_total_paid := 150 }]).manualRevenue = 160
    ∧ (computeEventTotals 36 { wp_event_id := 1, price := some 100 } []
        [{ status := .confirmat, quantity := 2, ticketPrice := some 80 }]
        [{ line_total_paid := 150 }]).revenue = 310) := by
  refine ⟨?_, ?_, ?_, ?_, ?_⟩
  · intro dc event wpA mA pays hne
    have hlen : 0 < pays.length := List.length_pos.mpr hne
    simp only [computeEventTotals, gt_iff_lt]
    rw [if_pos hlen, foldl_add_map]
    simp
  · intro dc event wpA mA
    simp [computeEventTotals]
  · intro dc event wpA mA pays
    simp only [computeEventTotals]
    rw [foldl_add_if]
    simp
  · intro dc event wpA mA pays
    simp [computeEventTotals]
  · refine ⟨?_, ?_, ?_⟩ <;>
      norm_num [computeEventTotals, countsForRevenue, jsOrQ]

/-- Witness for claim C2: the payment-priority conjunct at the concrete
instance of the claim. -/
theorem c2_revenue_totals_witness :
    (computeEventTotals 36 { wp_event_id := 1, price := some 100 } []
        [{ status := ManualStatus.confirmat, quantity := 2, ticketPrice := some 80 }]
        [{ line_total_paid := 150 }]).onlineRevenue
      = ([({ line_total_paid := 150 } : WPTicketPayment)].map
          (fun p => p.line_total_paid)).sum :=
  c2_revenue_totals.1 36 { wp_event_id := 1, price := some 100 } []
    [{ status := ManualStatus.confirmat, quantity := 2, ticketPrice := some 80 }]
    [{ line_total_paid := 150 }] (by decide)

/-! ## JavaScript Map model and the attendee merge (src/services/storage.ts) -/

/-- `Map.set`: when the key is already present the value is replaced in
place, otherwise the pair is appended (JavaScript maps keep insertion
order). -/
def jsMapSet {β : Type} (m : List (ℕ × β)) (k : ℕ) (v : β) : List (ℕ × β) :=
  if m.any (fun p => p.1 == k) then
    m.map (fun p => if p.1 == k then (k, v) else p)
  else m ++ [(k, v)]

/-- The key list of a map, in insertion order. -/
def mapKeys {β : Type} (m : List (ℕ × β)) : List ℕ :=
  m.map Prod.fst

/-- `Map.get`: the value stored under a key. -/
def getEntry {β : Type} (m : List (ℕ × β)) (k : ℕ) : Option β :=
  (m.find? (fun p => p.1 == k)).map Prod.snd

/-- Insert every element of `l`, keyed by `key`, left to right:
`l.forEach(r => m.set(key(r), r))`; also the meaning of
`new Map(l.map(r => [key(r), r]))`. -/
def insertAll {β : Type} (key : β → ℕ) (l : List β) (m : List (ℕ × β)) : List (ℕ × β) :=
  l.foldl (fun acc r => jsMapSet acc (key r) r) m

/-- Every value of the map is stored under its own key. -/
def keyedBy {β : Type} (key : β → ℕ) (m : List (ℕ × β)) : Prop :=
  ∀ p ∈ m, key p.2 = p.1

theorem mapKeys_jsMapSet {β : Type} (m : List (ℕ × β)) (k : ℕ) (v : β) :
    mapKeys (jsMapSet m k v) = if k ∈ mapKeys m then mapKeys m else mapKeys m ++ [k] := by
  unfold jsMapSet mapKeys
  by_cases hany : (m.any fun p => p.1 == k) = true
  · rw [if_pos hany]
    have hmem : k ∈ m.map Prod.fst := by
      rcases List.any_eq_true.mp hany with ⟨p, hp, hpk⟩
      have hpk' : p.1 = k := by simpa using hpk
      exact List.mem_map.mpr ⟨p, hp, hpk'⟩
    rw [if_pos hmem, List.map_map]
    refine List.map_congr_left fun p hp => ?_
    by_cases hpk : p.1 = k
    · simp [hpk]
    · simp [hpk]
  · rw [if_neg hany]
    have hmem : k ∉ m.map Prod.fst := by
      intro hkk
      rcases List.mem_map.mp hkk with ⟨p, hp, hpk⟩
      exact hany (List.any_eq_true.mpr ⟨p, hp, by simpa using hpk⟩)
    rw [if_neg hmem, List.map_append]
    rfl

theorem mapKeys_nodup_jsMapSet {β : Type} {m : List (ℕ × β)} {k : ℕ} {v : β}
    (h : (mapKeys m).Nodup) : (mapKeys (jsMapSet m k v)).Nodup := by
  rw [mapKeys_jsMapSet]
  by_cases hk : k ∈ mapKeys m
  · simpa [hk] using h
  · rw [if_neg hk, List.nodup_append]
    refine ⟨h, List.nodup_singleton _, ?_⟩
    intro a ha hak
    have : a = k := by simpa using hak
    exact hk (this ▸ ha)

theorem mem_jsMapSet {β : Type} {m : List (ℕ × β)} {k : ℕ} {v : β} {p : ℕ × β}
    (hp : p ∈ jsMapSet m k v) : p ∈ m ∨ p = (k, v) := by
  unfold jsMapSet at hp
  by_cases hany : (m.any fun q => q.1 == k) = true
  · rw [if_pos hany] at hp
    rcases List.mem_map.mp hp with ⟨q, hq, hrepl⟩
    by_cases hqk : q.1 = k
    · right
      rw [← hrepl]
      simp [hqk]
    · left
      have hid : (if (q.1 == k) = true then (k, v) else q) = q := by simp [hqk]
      rw [hid] at hrepl
      exact hrepl ▸ hq
  · rw [if_neg hany] at hp
    rcases List.mem_append.mp hp with h | h
    · exact Or.inl h
    · right
      simpa using h

theorem keyedBy_jsMapSet {β : Type} {key : β → ℕ} {m : List (ℕ × β)} {k : ℕ} {v : β}
    (h : keyedBy key m) (hv : key v = k) : keyedBy key (jsMapSet m k v) := by
  intro p hp
  rcases mem_jsMapSet hp with hmem | rfl
  · exact h p hmem
  · simpa using hv

theorem keyedBy_insertAll {β : Type} {key : β → ℕ} {m : List (ℕ × β)} (l : List β)
    (h : keyedBy key m) : keyedBy key (insertAll key l m) := by
  induction l generalizing m with
  | nil => simpa [insertAll] using h
  | cons r rs ih =>
    show keyedBy key (insertAll key rs (jsMapSet m (key r) r))
    exact ih (keyedBy_jsMapSet h rfl)

theorem mem_mapKeys_insertAll {β : Type} {key : β → ℕ} (l : List β) (m : List (ℕ × β))
    (k : ℕ) :
    k ∈ mapKeys (insertAll key l m) ↔ k ∈ mapKeys m ∨ k ∈ l.map key := by
  induction l generalizing m with
  | nil => simp [insertAll]
  | cons r rs ih =>
    show k ∈ mapKeys (insertAll key rs (jsMapSet m (key r) r)) ↔ _
    rw [ih, mapKeys_jsMapSet]
    by_cases hk : key r ∈ mapKeys m
    · rw [if_pos hk]
      simp only [List.map_cons, List.mem_cons]
      constructor
      · rintro (h | h)
        · exact Or.inl h
        · exact Or.inr (Or.inr h)
      · rintro (h | h | h)
        · exact Or.inl h
        · exact Or.inl (by rw [h]; exact hk)
        · exact Or.inr h
    · rw [if_neg hk]
      simp only [List.mem_append, List.map_cons, List.mem_cons, List.mem_singleton]
      tauto

theorem mapKeys_nodup_insertAll {β : Type} {key : β → ℕ} (l : List β) {m : List (ℕ × β)}
    (h : (mapKeys m).Nodup) : (mapKeys (insertAll key l m)).Nodup := by
  induction l generalizing m with
  | nil => simpa [insertAll] using h
  | cons r rs ih =>
    show (mapKeys (insertAll key rs (jsMapSet m (key r) r))).Nodup
    exact ih (mapKeys_nodup_jsMapSet h)

theorem find?_cons_pos {α : Type} (p : α → Bool) (a : α) (l : List α) (h : p a = true) :
    (a :: l).find? p = some a := by
  simp [List.find?, h]

theorem find?_cons_neg {α : Type} (p : α → Bool) (a : α) (l : List α) (h : p a = false) :
    (a :: l).find? p = l.find? p := by
  simp [List.find?, h]

theorem find?_map_replace {β : Type} {m : List (ℕ × β)} {k : ℕ} {v : β}
    (hmem : ∃ p ∈ m, p.1 = k) :
    (m.map (fun p => if p.1 == k then (k, v) else p)).find? (fun p => p.1 == k)
      = some (k, v) := by
  induction m with
  | nil => rcases hmem with ⟨p, hp, _⟩; cases hp
  | cons q rest ih =>
    rw [List.map_cons]
    by_cases hq : q.1 = k
    · have h1 : (if (q.1 == k) = true then (k, v) else q) = (k, v) := by simp [hq]
      rw [h1, find?_cons_pos (fun p => p.1 == k) (k, v) _ (by simp)]
    · have h1 : (if (q.1 == k) = true then (k, v) else q) = q := by simp [hq]
      rw [h1, find?_cons_neg (fun p => p.1 == k) q _ (by simpa using hq)]
      apply ih
      rcases hmem with ⟨p, hp, hpk⟩
      rcases List.mem_cons.mp hp with rfl | hrest
      · exact absurd hpk hq
      · exact ⟨p, hrest, hpk⟩

theorem find?_map_replace_other {β : Type} {m : List (ℕ × β)} {k : ℕ} {v : β} {j : ℕ}
    (h : j ≠ k) :
    (m.map (fun p => if p.1 == k then (k, v) else p)).find? (fun p => p.1 == j)
      = m.find? (fun p => p.1 == j) := by
  induction m with
  | nil => rfl
  | cons q rest ih =>
    rw [List.map_cons]
    by_cases hq : q.1 = k
    · have h1 : (if (q.1 == k) = true then (k, v) else q) = (k, v) := by simp [hq]
      have h2 : (q.1 == j) = false := by
        rw [hq]
        simpa using Ne.symm h
      rw [h1, find?_cons_neg (fun p => p.1 == j) (k, v) _ (by simpa using Ne.symm h),
        find?_cons_neg (fun p => p.1 == j) q _ h2]
      exact ih
    · have h1 : (if (q.1 == k) = true then (k, v) else q) = q := by simp [hq]
      rw [h1]
      by_cases hqj : (q.1 == j) = true
      · rw [find?_cons_pos (fun p => p.1 == j) q _ hqj,
          find?_cons_pos (fun p => p.1 == j) q _ hqj]
      · have hqj' : (q.1 == j) = false := by simpa using hqj
        rw [find?_cons_neg (fun p => p.1 == j) q _ hqj',
          find?_cons_neg (fun p => p.1 == j) q _ hqj']
        exact ih

theorem getEntry_jsMapSet_self {β : Type} (m : List (ℕ × β)) (k : ℕ) (v : β) :
    getEntry (jsMapSet m k v) k = some v := by
  unfold getEntry jsMapSet
  by_cases hany : (m.any fun p => p.1 == k) = true
  · rw [if_pos hany]
    rcases List.any_eq_true.mp hany with ⟨p, hp, hpk⟩
    rw [find?_map_replace ⟨p, hp, by simpa using hpk⟩]
    rfl
  · rw [if_neg hany, List.find?_append]
    have hnone : m.find? (fun p => p.1 == k) = none :=
      List.find?_eq_none.mpr fun x hx hxk => hany (List.any_eq_true.mpr ⟨x, hx, hxk⟩)
    rw [hnone, find?_cons_pos (fun p => p.1 == k) (k, v) [] (by simp)]
    rfl

theorem getEntry_jsMapSet_other {β : Type} {m : List (ℕ × β)} {k : ℕ} {v : β} {j : ℕ}
    (h : j ≠ k) : getEntry (jsMapSet m k v) j = getEntry m j := by
  unfold getEntry jsMapSet
  by_cases hany : (m.any fun p => p.1 == k) = true
  · rw [if_pos hany, find?_map_replace_other h]
  · rw [if_neg hany, List.find?_append]
    have hlast : [(k, v)].find? (fun p => p.1 == j) = none := by
      apply List.find?_eq_none.mpr
      intro x hx
      have hxkv : x = (k, v) := by simpa using hx
      subst hxkv
      simpa using Ne.symm h
    rw [hlast]
    cases m.find? (fun p => p.1 == j) <;> rfl

theorem getEntry_insertAll_not_mem {β : Type} {key : β → ℕ} {l : List β}
    {m : List (ℕ × β)} {k : ℕ} (h : k ∉ l.map key) :
    getEntry (insertAll key l m) k = getEntry m k := by
  induction l generalizing m with
  | nil => rfl
  | cons r rs ih =>
    have hk : k ≠ key r := fun hk => h (by simp [hk])
    have hrest : k ∉ rs.map key := fun hmem => h (by simp [hmem])
    show getEntry (insertAll key rs (jsMapSet m (key r) r)) k = _
    rw [ih hrest, getEntry_jsMapSet_other hk]

theorem getEntry_insertAll_self {β : Type} {key : β → ℕ} {l : List β}
    {m : List (ℕ × β)} {b : β} (hnd : (l.map key).Nodup) (hb : b ∈ l) :
    getEntry (insertAll key l m) (key b) = some b := by
  induction l generalizing m with
  | nil => cases hb
  | cons r rs ih =>
    rw [List.map_cons, List.nodup_cons] at hnd
    rcases List.mem_cons.mp hb with rfl | hmem
    · show getEntry (insertAll key rs (jsMapSet m (key b) b)) (key b) = some b
      rw [getEntry_insertAll_not_mem hnd.1]
      exact getEntry_jsMapSet_self m (key b) b
    · exact ih hnd.2 hmem

theorem getEntry_insertAll_of_mem_keys {β : Type} {key : β → ℕ} {l : List β}
    {m : List (ℕ × β)} {k : ℕ} (hk : k ∈ l.map key) :
    ∃ b ∈ l, key b = k ∧ getEntry (insertAll key l m) k = some b := by
  induction l generalizing m with
  | nil => cases hk
  | cons r rs ih =>
    by_cases hmem : k ∈ rs.map key
    · rcases ih (m := jsMapSet m (key r) r) hmem with ⟨b, hb, hbk, hget⟩
      exact ⟨b, List.mem_cons_of_mem _ hb, hbk, hget⟩
    · have hkr : key r = k := by
        rcases (by simpa using hk : k = key r ∨ k ∈ rs.map key) with h | h
        · exact h.symm
        · exact absurd h hmem
      refine ⟨r, List.mem_cons_self _ _, hkr, ?_⟩
      show getEntry (insertAll key rs (jsMapSet m (key r) r)) k = some r
      rw [getEntry_insertAll_not_mem hmem, ← hkr]
      exact getEntry_jsMapSet_self m (key r) r

theorem getEntry_of_mem_nodup {β : Type} {m : List (ℕ × β)} {p : ℕ × β}
    (hnd : (mapKeys m).Nodup) (hp : p ∈ m) : getEntry m p.1 = some p.2 := by
  induction m with
  | nil => cases hp
  | cons q rest ih =>
    simp only [mapKeys, List.map_cons, List.nodup_cons] at hnd
    rcases List.mem_cons.mp hp with rfl | hmem
    · unfold getEntry
      rw [find?_cons_pos (fun x => x.1 == p.1) p rest (by simp)]
      rfl
    · have hq : (q.1 == p.1) = false := by
        simp only [beq_eq_false_iff_ne, ne_eq]
        intro he
        exact hnd.1 (he ▸ List.mem_map.mpr ⟨p, hmem, rfl⟩)
      unfold getEntry
      rw [find?_cons_neg (fun x => x.1 == p.1) q rest hq]
      exact ih hnd.2 hmem

/-- `upsertAttendees` from storage.ts: build a lookup map of the existing
records keyed by `attendeeId`, set every new record over it, take the values
and sort them ascending on `createdUtc`. -/
def upsertAttendees (existing newRecords : List AttendeeRecord) : List AttendeeRecord :=
  let lookup := insertAll (fun a => a.attendeeId) existing []
  let merged := insertAll (fun a => a.attendeeId) newRecords lookup
  List.insertionSort (fun a b => a.createdUtc ≤ b.createdUtc) (merged.map Prod.snd)

theorem upsertAttendees_perm (A B : List AttendeeRecord) :
    (upsertAttendees A B).Perm
      ((insertAll (fun a => a.attendeeId) B
        (insertAll (fun a => a.attendeeId) A [])).map Prod.snd) := by
  unfold upsertAttendees
  exact List.perm_insertionSort _ _

theorem upsertAttendees_final_keyed (A B : List AttendeeRecord) :
    keyedBy (fun a => a.attendeeId)
      (insertAll (fun a => a.attendeeId) B (insertAll (fun a => a.attendeeId) A [])) :=
  keyedBy_insertAll _ (keyedBy_insertAll _ (fun p hp => by cases hp))

theorem upsertAttendees_final_nodup (A B : List AttendeeRecord) :
    (mapKeys (insertAll (fun a => a.attendeeId) B
      (insertAll (fun a => a.attendeeId) A []))).Nodup :=
  mapKeys_nodup_insertAll _ (mapKeys_nodup_insertAll _ (by simp [mapKeys]))

theorem upsertAttendees_ids_perm (A B : List AttendeeRecord) :
    ((upsertAttendees A B).map (fun a => a.attendeeId)).Perm
      (mapKeys (insertAll (fun a => a.attendeeId) B
        (insertAll (fun a => a.attendeeId) A []))) := by
  have h1 := (upsertAttendees_perm A B).map (fun a => a.attendeeId)
  have h2 : ((insertAll (fun a => a.attendeeId) B
        (insertAll (fun a => a.attendeeId) A [])).map Prod.snd).map (fun a => a.attendeeId)
      = mapKeys (insertAll (fun a => a.attendeeId) B
        (insertAll (fun a => a.attendeeId) A [])) := by
    rw [List.map_map]
    exact List.map_congr_left fun p hp => upsertAttendees_final_keyed A B p hp
  rw [h2] at h1
  exact h1

theorem upsertAttendees_ids_nodup (A B : List AttendeeRecord) :
    ((upsertAttendees A B).map (fun a => a.attendeeId)).Nodup :=
  (upsertAttendees_ids_perm A B).nodup_iff.mpr (upsertAttendees_final_nodup A B)

theorem mem_upsertAttendees_ids (A B : List AttendeeRecord) (k : ℕ) :
    k ∈ (upsertAttendees A B).map (fun a => a.attendeeId) ↔
      k ∈ A.map (fun a => a.attendeeId) ∨ k ∈ B.map (fun a => a.attendeeId) := by
  rw [(upsertAttendees_ids_perm A B).mem_iff, mem_mapKeys_insertAll,
    mem_mapKeys_insertAll]
  simp [mapKeys]

theorem upsertAttendees_B_wins (A B : List AttendeeRecord) (r : AttendeeRecord)
    (hr : r ∈ upsertAttendees A B)
    (hid : r.attendeeId ∈ B.map (fun a => a.attendeeId)) : r ∈ B := by
  have hr' : r ∈ (insertAll (fun a => a.attendeeId) B
      (insertAll (fun a => a.attendeeId) A [])).map Prod.snd :=
    (upsertAttendees_perm A B).mem_iff.mp hr
  rcases List.mem_map.mp hr' with ⟨p, hp, hpr⟩
  have hget : getEntry (insertAll (fun a => a.attendeeId) B
      (insertAll (fun a => a.attendeeId) A [])) p.1 = some p.2 :=
    getEntry_of_mem_nodup (upsertAttendees_final_nodup A B) hp
  have hkey : p.2.attendeeId = p.1 := upsertAttendees_final_keyed A B p hp
  rcases getEntry_insertAll_of_mem_keys (m := insertAll (fun a => a.attendeeId) A []) hid
    with ⟨b, hb, hbk, hbget⟩
  have hp1 : p.1 = r.attendeeId := by rw [← hkey, hpr]
  rw [hp1, hpr] at hget
  have hrb : some r = some b := by rw [← hget, hbget]
  have : r = b := by injection hrb
  exact this ▸ hb

theorem upsertAttendees_mem_of_B (A B : List AttendeeRecord) (b : AttendeeRecord)
    (hnd : (B.map (fun a => a.attendeeId)).Nodup) (hb : b ∈ B) :
    b ∈ upsertAttendees A B := by
  have hget : getEntry (insertAll (fun a => a.attendeeId) B
      (insertAll (fun a => a.attendeeId) A [])) b.attendeeId = some b :=
    getEntry_insertAll_self hnd hb
  unfold getEntry at hget
  rcases Option.map_eq_some'.mp hget with ⟨p, hfind, hsnd⟩
  have hp := List.mem_of_find?_eq_some hfind
  refine (upsertAttendees_perm A B).mem_iff.mpr ?_
  exact List.mem_map.mpr ⟨p, hp, hsnd⟩

theorem upsertAttendees_length (A B : List AttendeeRecord) :
    (upsertAttendees A B).length =
      ((A.map (fun a => a.attendeeId)).toFinset ∪
        (B.map (fun a => a.attendeeId)).toFinset).card := by
  have hnd := upsertAttendees_ids_nodup A B
  have hfin : ((upsertAttendees A B).map (fun a => a.attendeeId)).toFinset =
      (A.map (fun a => a.attendeeId)).toFinset ∪ (B.map (fun a => a.attendeeId)).toFinset := by
    apply Finset.ext
    intro k
    simp only [List.mem_toFinset, Finset.mem_union]
    exact mem_upsertAttendees_ids A B k
  calc (upsertAttendees A B).length
      = ((upsertAttendees A B).map (fun a => a.attendeeId)).length := by
        rw [List.length_map]
    _ = ((upsertAttendees A B).map (fun a => a.attendeeId)).toFinset.card :=
        (List.toFinset_card_of_nodup hnd).symm
    _ = ((A.map (fun a => a.attendeeId)).toFinset ∪
          (B.map (fun a => a.attendeeId)).toFinset).card := by rw [hfin]

/-- Claim C3: merging a delta batch B into a cached list A keyed by attendee
id yields exactly one record per attendee id of ids(A) ∪ ids(B) — the result
has no duplicate ids and its length is the cardinality of the id union — and
for ids occurring in B the record kept comes from B (with the batch itself
id-unique, each of its records is in the merge). -/
theorem c3_upsert_attendees_merge :
    (∀ A B : List AttendeeRecord,
        ((upsertAttendees A B).map (fun a => a.attendeeId)).Nodup)
  ∧ (∀ (A B : List AttendeeRecord) (k : ℕ),
        k ∈ (upsertAttendees A B).map (fun a => a.attendeeId) ↔
          k ∈ A.map (fun a => a.attendeeId) ∨ k ∈ B.map (fun a => a.attendeeId))
  ∧ (∀ (A B : List AttendeeRecord) (r : AttendeeRecord), r ∈ upsertAttendees A B →
        r.attendeeId ∈ B.map (fun a => a.attendeeId) → r ∈ B)
  ∧ (∀ (A B : List AttendeeRecord) (b : AttendeeRecord),
        (B.map (fun a => a.attendeeId)).Nodup → b ∈ B → b ∈ upsertAttendees A B)
  ∧ (∀ A B : List AttendeeRecord,
        (upsertAttendees A B).length =
          ((A.map (fun a => a.attendeeId)).toFinset ∪
            (B.map (fun a => a.attendeeId)).toFinset).card) :=
  ⟨upsertAttendees_ids_nodup, mem_upsertAttendees_ids, upsertAttendees_B_wins,
    upsertAttendees_mem_of_B, upsertAttendees_length⟩

/-- Witness for claim C3: a two-record cache merged with an overlapping
one-record batch keeps the batch version of the shared id. -/
theorem c3_upsert_attendees_merge_witness :
    ({ attendeeId := 1, fullName := "New", createdUtc := 7 } : AttendeeRecord) ∈
      upsertAttendees
        [{ attendeeId := 1, fullName := "Old", createdUtc := 3 },
         { attendeeId := 2, fullName := "Keep", createdUtc := 4 }]
        [{ attendeeId := 1, fullName := "New", createdUtc := 7 }] :=
  c3_upsert_attendees_merge.2.2.2.1
    [{ attendeeId := 1, fullName := "Old", createdUtc := 3 },
     { attendeeId := 2, fullName := "Keep", createdUtc := 4 }]
    [{ attendeeId := 1, fullName := "New", createdUtc := 7 }]
    { attendeeId := 1, fullName := "New", createdUtc := 7 }
    (by decide) (by decide)

/-! ## Order-to-event reconciler (src/services/wooOrdersService.ts and
src/services/paymentsService.ts) -/

/-- A WooCommerce order line item, with the fields the reconciler reads. -/
structure WCLineItem where
  id : ℕ
  product_id : Option ℕ := none
  quantity : ℕ := 0
  total : ℚ := 0
  subtotal : ℚ := 0
  deriving Repr, DecidableEq

/-- A WooCommerce order; `coupon_lines` is the list of coupon codes. -/
structure WCOrder where
  id : ℕ
  line_items : List WCLineItem := []
  coupon_lines : List String := []
  currency : Option String := none
  total : ℚ := 0
  date_paid : Option ℕ := none
  date_created : ℕ := 0
  deriving Repr, DecidableEq

/-- The remote collaborators of the reconciler, each modelled as the mapping
it answers with: the orders endpoint (`fetchOrdersByIds`, requested in chunks
of 15 whose concatenation is the per-id lookup below), the `wp_attendees`
store rows giving an already-verified event id per order id, and the product
metadata lookup (`fetchProductEventMapping` reads the event-association meta
keys of each product, requested in chunks of 50). -/
structure WooEnv where
  fetchOrder : ℕ → Option WCOrder
  attendeeEventOf : ℕ → Option ℕ
  productEventOf : ℕ → Option ℕ

/-- JavaScript `Array.from(new Set(l))`: deduplicate keeping first
occurrences. -/
def jsSetDedup (l : List ℕ) : List ℕ :=
  l.foldl (fun acc x => if x ∈ acc then acc else acc ++ [x]) []

/-- `paymentsService.getExistingOrderIds` membership: some persisted payment
row carries this order id. -/
def hasOrder (store : List WPTicketPayment) (oid : ℕ) : Bool :=
  store.any (fun p => p.wp_order_id == oid)

/-- The natural key of a payment row: `(wp_order_id, wp_order_item_id)`, the
`onConflict` columns of `upsertBatch`. -/
def paymentKey (p : WPTicketPayment) : ℕ × ℕ :=
  (p.wp_order_id, p.wp_order_item_id)

/-- The key list of a payment store. -/
def paymentKeys (store : List WPTicketPayment) : List (ℕ × ℕ) :=
  store.map paymentKey

/-- Upsert of one payment row keyed on `(wp_order_id, wp_order_item_id)`:
replace the conflicting row in place, else insert. -/
def upsertOne (st : List WPTicketPayment) (p : WPTicketPayment) : List WPTicketPayment :=
  if st.any (fun q => q.wp_order_id == p.wp_order_id
      && q.wp_order_item_id == p.wp_order_item_id) then
    st.map (fun q => if q.wp_order_id == p.wp_order_id
        && q.wp_order_item_id == p.wp_order_item_id then p else q)
  else st ++ [p]

/-- `paymentsService.upsertBatch`: upsert every row of the batch. -/
def upsertBatch (store payments : List WPTicketPayment) : List WPTicketPayment :=
  payments.foldl upsertOne store

/-- `fetchOrderEventMappingFromAttendees`: the order→event object built from
the attendee rows whose order id is among the requested ids (each such row
carries the verified event id `attendeeEventOf` answers with). -/
def fetchOrderEventMappingFromAttendees (env : WooEnv) (orderIds : List ℕ) :
    List (ℕ × ℕ) :=
  orderIds.filterMap (fun oid => (env.attendeeEventOf oid).map (fun e => (oid, e)))

/-- `fetchProductEventMapping`: product id → event id for every requested
product whose metadata carries an event association. -/
def fetchProductEventMapping (env : WooEnv) (productIds : List ℕ) : List (ℕ × ℕ) :=
  productIds.filterMap (fun pid => (env.productEventOf pid).map (fun e => (pid, e)))

/-- Step 5 of `syncPaymentsForOrders`: the distinct truthy product ids
referenced by the line items of the fetched orders, in first-seen order. -/
def orderProductIds (orders : List WCOrder) : List ℕ :=
  jsSetDedup (List.flatten (orders.map (fun o => o.line_items.filterMap (fun it =>
    match it.product_id with
    | some p => if p = 0 then none else some p
    | none => none))))

/-- The inner loop of step 7: the first line item whose (truthy) product id
has a product→event mapping decides the event; `break` after the first hit. -/
def firstProductEvent (pem : List (ℕ × ℕ)) : List WCLineItem → Option ℕ
  | [] => none
  | it :: rest =>
    match it.product_id with
    | some p =>
      if p ≠ 0 then
        match getEntry pem p with
        | some e => some e
        | none => firstProductEvent pem rest
      else firstProductEvent pem rest
    | none => firstProductEvent pem rest

/-- Steps 6–7 of `syncPaymentsForOrders`: attendee-based mapping over the
requested unique ids first; only orders it leaves unmapped get a
product-metadata mapping, and the product fetch happens only when there are
unmapped orders and product ids at all. -/
def resolveOrderEventMap (env : WooEnv) (uniqueIds : List ℕ) (allOrders : List WCOrder) :
    List (ℕ × ℕ) :=
  let orderEventMap := fetchOrderEventMappingFromAttendees env uniqueIds
  let unmappedOrders := allOrders.filter (fun o => (getEntry orderEventMap o.id).isNone)
  let productIds := orderProductIds allOrders
  if unmappedOrders ≠ [] then
    if productIds ≠ [] then
      orderEventMap ++ unmappedOrders.filterMap (fun o =>
        (firstProductEvent (fetchProductEventMapping env productIds) o.line_items).map
          (fun e => (o.id, e)))
    else orderEventMap
  else orderEventMap

/-- `coupon_lines.map(c => c.code).join(', ')`. -/
def joinComma : List String → String
  | [] => ""
  | [s] => s
  | s :: rest => s ++ ", " ++ joinComma rest

/-- JavaScript `a || b` on an optional string with a non-empty default. -/
def jsOrStr (a : Option String) (b : String) : String :=
  match a with
  | some s => if s = "" then b else s
  | none => b

/-- The line-item accumulation loop of `processOrders`: total quantity,
summed subtotal and summed total, skipping zero-quantity items. -/
def lineItemsTotals (items : List WCLineItem) : ℕ × ℚ × ℚ :=
  items.foldl (fun acc item =>
    if item.quantity = 0 then acc
    else (acc.1 + item.quantity, acc.2.1 + item.subtotal, acc.2.2 + item.total)) (0, 0, 0)

/-- The body of the `processOrders` loop for one order: `continue` (here
`none`) when the order has no event mapping, no line items, or no positive
quantity; otherwise one aggregated payment record keyed by the order id and
the first line item id. -/
def processOrder (m : List (ℕ × ℕ)) (order : WCOrder) : Option WPTicketPayment :=
  match getEntry m order.id with
  | none => none
  | some eventId =>
    let couponCodes := joinComma order.coupon_lines
    let paidAt := order.date_paid.getD order.date_created
    match order.line_items with
    | [] => none
    | first :: _ =>
      let t := lineItemsTotals order.line_items
      if t.1 = 0 then none
      else some {
        wp_event_id := eventId,
        wp_order_id := order.id,
        wp_order_item_id := first.id,
        qty := t.1,
        currency := jsOrStr order.currency ("RON"),
        line_total_paid := t.2.2,
        unit_price_paid := t.2.2 / (t.1 : ℚ),
        line_subtotal := t.2.1,
        discount_allocated := t.2.1 - t.2.2,
        coupon_codes := couponCodes,
        order_total := order.total,
        paid_at := paidAt }

/-- `processOrders`: the loop pushes at most one record per order. -/
def processOrders (orders : List WCOrder) (m : List (ℕ × ℕ)) : List WPTicketPayment :=
  orders.filterMap (processOrder m)

/-- The result of one `syncPaymentsForOrders` call: the payment store after
the call and the number of order ids requested from the orders endpoint. -/
structure WooSyncResult where
  store : List WPTicketPayment
  fetchedOrderCount : ℕ
  deriving Repr, DecidableEq

/-- Steps 4–8 of `syncPaymentsForOrders` (the part reached when some ids are
missing): fetch the missing orders, resolve the order→event map, process,
and upsert the resulting batch when it is non-empty. -/
def syncFetchAndStore (env : WooEnv) (store : List WPTicketPayment)
    (uniqueIds missingIds : List ℕ) : WooSyncResult :=
  let allOrders := missingIds.filterMap env.fetchOrder
  let orderEventMap := resolveOrderEventMap env uniqueIds allOrders
  let payments := processOrders allOrders orderEventMap
  if payments ≠ [] then ⟨upsertBatch store payments, missingIds.length⟩
  else ⟨store, missingIds.length⟩

/-- `syncPaymentsForOrders` from wooOrdersService.ts: return on an empty
argument, deduplicate, drop the ids that already have a persisted payment
row (unless `force`), and return immediately when nothing is missing. -/
def syncPaymentsForOrders (env : WooEnv) (store : List WPTicketPayment)
    (orderIds : List ℕ) (force : Bool) : WooSyncResult :=
  if orderIds = [] then ⟨store, 0⟩
  else
    let uniqueIds := jsSetDedup orderIds
    let missingIds := if force then uniqueIds
      else uniqueIds.filter (fun oid => !hasOrder store oid)
    if force = false ∧ missingIds = [] then ⟨store, 0⟩
    else syncFetchAndStore env store uniqueIds missingIds

theorem mem_jsSetDedup_aux (l : List ℕ) (acc : List ℕ) (x : ℕ) :
    x ∈ l.foldl (fun acc x => if x ∈ acc then acc else acc ++ [x]) acc ↔
      x ∈ acc ∨ x ∈ l := by
  induction l generalizing acc with
  | nil => simp
  | cons y ys ih =>
    show x ∈ ys.foldl _ (if y ∈ acc then acc else acc ++ [y]) ↔ _
    rw [ih]
    by_cases hy : y ∈ acc
    · rw [if_pos hy]
      simp only [List.mem_cons]
      constructor
      · rintro (h | h)
        · exact Or.inl h
        · exact Or.inr (Or.inr h)
      · rintro (h | h | h)
        · exact Or.inl h
        · exact Or.inl (h ▸ hy)
        · exact Or.inr h
    · rw [if_neg hy]
      simp only [List.mem_append, List.mem_singleton, List.mem_cons]
      tauto

theorem mem_jsSetDedup (l : List ℕ) (x : ℕ) : x ∈ jsSetDedup l ↔ x ∈ l := by
  unfold jsSetDedup
  rw [mem_jsSetDedup_aux]
  simp

theorem paymentMatch_iff (q p : WPTicketPayment) :
    (q.wp_order_id == p.wp_order_id && q.wp_order_item_id == p.wp_order_item_id) = true ↔
      paymentKey q = paymentKey p := by
  simp [paymentKey, Prod.ext_iff]

theorem paymentKeys_upsertOne (st : List WPTicketPayment) (p : WPTicketPayment) :
    paymentKeys (upsertOne st p) =
      if paymentKey p ∈ paymentKeys st then paymentKeys st
      else paymentKeys st ++ [paymentKey p] := by
  unfold upsertOne paymentKeys
  by_cases hany : (st.any fun q => q.wp_order_id == p.wp_order_id
      && q.wp_order_item_id == p.wp_order_item_id) = true
  · rw [if_pos hany]
    have hmem : paymentKey p ∈ st.map paymentKey := by
      rcases List.any_eq_true.mp hany with ⟨q, hq, hqp⟩
      exact List.mem_map.mpr ⟨q, hq, (paymentMatch_iff q p).mp hqp⟩
    rw [if_pos hmem, List.map_map]
    refine List.map_congr_left fun q hq => ?_
    by_cases hqp : (q.wp_order_id == p.wp_order_id
        && q.wp_order_item_id == p.wp_order_item_id) = true
    · simp only [Function.comp_apply, if_pos hqp]
      exact ((paymentMatch_iff q p).mp hqp).symm
    · simp only [Function.comp_apply, if_neg hqp]
  · rw [if_neg hany]
    have hmem : paymentKey p ∉ st.map paymentKey := by
      intro hkk
      rcases List.mem_map.mp hkk with ⟨q, hq, hqp⟩
      exact hany (List.any_eq_true.mpr ⟨q, hq, (paymentMatch_iff q p).mpr hqp⟩)
    rw [if_neg hmem, List.map_append]
    rfl

theorem paymentKeys_nodup_upsertOne {st : List WPTicketPayment} {p : WPTicketPayment}
    (h : (paymentKeys st).Nodup) : (paymentKeys (upsertOne st p)).Nodup := by
  rw [paymentKeys_upsertOne]
  by_cases hk : paymentKey p ∈ paymentKeys st
  · simpa [hk] using h
  · rw [if_neg hk, List.nodup_append]
    refine ⟨h, List.nodup_singleton _, ?_⟩
    intro a ha hak
    have : a = paymentKey p := by simpa using hak
    exact hk (this ▸ ha)

theorem paymentKeys_nodup_upsertBatch (payments : List WPTicketPayment)
    {store : List WPTicketPayment} (h : (paymentKeys store).Nodup) :
    (paymentKeys (upsertBatch store payments)).Nodup := by
  induction payments generalizing store with
  | nil => simpa [upsertBatch] using h
  | cons p ps ih =>
    show (paymentKeys (upsertBatch (upsertOne store p) ps)).Nodup
    exact ih (paymentKeys_nodup_upsertOne h)

theorem syncPaymentsForOrders_noop (env : WooEnv) (store : List WPTicketPayment)
    (s : List ℕ) (h : ∀ oid ∈ s, hasOrder store oid = true) :
    syncPaymentsForOrders env store s false = ⟨store, 0⟩ := by
  by_cases hs : s = []
  · subst hs
    simp [syncPaymentsForOrders]
  · have hm : (jsSetDedup s).filter (fun oid => !hasOrder store oid) = [] := by
      rw [List.filter_eq_nil_iff]
      intro a ha
      have := h a ((mem_jsSetDedup s a).mp ha)
      simp [this]
    simp [syncPaymentsForOrders, hs, hm]

theorem syncPaymentsForOrders_keys_nodup (env : WooEnv) (store : List WPTicketPayment)
    (s : List ℕ) (force : Bool) (h : (paymentKeys store).Nodup) :
    (paymentKeys (syncPaymentsForOrders env store s force).store).Nodup := by
  simp only [syncPaymentsForOrders, syncFetchAndStore]
  repeat' split
  all_goals
    first
    | exact h
    | exact paymentKeys_nodup_upsertBatch _ h

/-- Claim C4 (amended): `syncPaymentsForOrders` deduplicates, queries the
store and returns immediately with no fetch when every (deduplicated) order
id already has a persisted payment row; the upsert keyed on
`(wp_order_id, wp_order_item_id)` keeps at most one row per key; and a
second identical call fetches zero orders provided the first call persisted
a row for every requested id. -/
theorem c4_reconciler_idempotent :
    (∀ (env : WooEnv) (store : List WPTicketPayment) (s : List ℕ),
        (∀ oid ∈ s, hasOrder store oid = true) →
        syncPaymentsForOrders env store s false = ⟨store, 0⟩)
  ∧ (∀ (env : WooEnv) (store : List WPTicketPayment) (s : List ℕ) (force : Bool),
        (paymentKeys store).Nodup →
        (paymentKeys (syncPaymentsForOrders env store s force).store).Nodup)
  ∧ (∀ (env : WooEnv) (store : List WPTicketPayment) (s : List ℕ),
        (∀ oid ∈ s,
          hasOrder (syncPaymentsForOrders env store s false).store oid = true) →
        syncPaymentsForOrders env (syncPaymentsForOrders env store s false).store s false
          = ⟨(syncPaymentsForOrders env store s false).store, 0⟩) :=
  ⟨syncPaymentsForOrders_noop, syncPaymentsForOrders_keys_nodup,
    fun env store s h => syncPaymentsForOrders_noop env
      (syncPaymentsForOrders env store s false).store s h⟩

/-- A remote world with one order that no strategy can map to an event: it
exists at the orders endpoint, but neither an attendee row nor product
metadata resolves it. -/
def c4CexEnv : WooEnv where
  fetchOrder := fun oid =>
    if oid = 1 then
      some { id := 1,
             line_items := [{ id := 11, product_id := some 5, quantity := 1, total := 50, subtotal := 50 }] }
    else none
  attendeeEventOf := fun _ => none
  productEventOf := fun _ => none

/-- Counterexample to claim C4 as stated: for the order id set {1} in
`c4CexEnv` the first call persists nothing (the order cannot be resolved to
an event and is skipped), so the second identical call fetches one order
from the gateway, not zero. -/
theorem c4_counterexample :
    (syncPaymentsForOrders c4CexEnv
        (syncPaymentsForOrders c4CexEnv [] [1] false).store [1] false).fetchedOrderCount
      = 1 := by
  decide

/-- Witness for claim C4: a store already holding order 1 makes the call a
no-op with zero fetches. -/
theorem c4_reconciler_idempotent_witness :
    syncPaymentsForOrders c4CexEnv [{ wp_order_id := 1, wp_order_item_id := 11 }] [1] false
      = ⟨[{ wp_order_id := 1, wp_order_item_id := 11 }], 0⟩ :=
  c4_reconciler_idempotent.1 c4CexEnv [{ wp_order_id := 1, wp_order_item_id := 11 }] [1]
    (by decide)

theorem getEntry_append_left {β : Type} {m1 m2 : List (ℕ × β)} {k : ℕ}
    (h : (getEntry m1 k).isSome) : getEntry (m1 ++ m2) k = getEntry m1 k := by
  unfold getEntry at h ⊢
  rw [List.find?_append]
  cases hf : m1.find? (fun p => p.1 == k) with
  | none => rw [hf] at h; simp at h
  | some p => rfl

theorem getEntry_append_right {β : Type} {m1 m2 : List (ℕ × β)} {k : ℕ}
    (h : getEntry m1 k = none) : getEntry (m1 ++ m2) k = getEntry m2 k := by
  unfold getEntry at h ⊢
  rw [List.find?_append]
  cases hf : m1.find? (fun p => p.1 == k) with
  | none => rfl
  | some p => rw [hf] at h; simp at h

theorem getEntry_filterMapPairs_not_mem (f : ℕ → Option ℕ) (ids : List ℕ) (k : ℕ)
    (h : k ∉ ids) :
    getEntry (ids.filterMap (fun i => (f i).map (fun e => (i, e)))) k = none := by
  induction ids with
  | nil => rfl
  | cons i rest ih =>
    have hik : i ≠ k := fun he => h (he ▸ List.mem_cons_self _ _)
    have hrest : k ∉ rest := fun hm => h (List.mem_cons_of_mem _ hm)
    cases hf : f i with
    | none =>
      simp only [List.filterMap_cons, hf, Option.map_none']
      exact ih hrest
    | some e =>
      simp only [List.filterMap_cons, hf, Option.map_some']
      unfold getEntry
      rw [find?_cons_neg (fun p => p.1 == k) (i, e) _ (by simpa using hik)]
      exact ih hrest

theorem getEntry_filterMapPairs (f : ℕ → Option ℕ) (ids : List ℕ) (k : ℕ) (h : k ∈ ids) :
    getEntry (ids.filterMap (fun i => (f i).map (fun e => (i, e)))) k = f k := by
  induction ids with
  | nil => cases h
  | cons i rest ih =>
    by_cases hik : i = k
    · subst hik
      cases hf : f i with
      | some e =>
        simp only [List.filterMap_cons, hf, Option.map_some']
        unfold getEntry
        rw [find?_cons_pos (fun p => p.1 == i) (i, e) _ (by simp)]
        simp [hf]
      | none =>
        simp only [List.filterMap_cons, hf, Option.map_none']
        by_cases hk : i ∈ rest
        · exact (ih hk).trans hf
        · exact getEntry_filterMapPairs_not_mem f rest i hk
    · have hmem : k ∈ rest := by
        rcases List.mem_cons.mp h with h' | h'
        · exact absurd h'.symm hik
        · exact h'
      cases hf : f i with
      | some e =>
        simp only [List.filterMap_cons, hf, Option.map_some']
        unfold getEntry
        rw [find?_cons_neg (fun p => p.1 == k) (i, e) _ (by simpa using hik)]
        exact ih hmem
      | none =>
        simp only [List.filterMap_cons, hf, Option.map_none']
        exact ih hmem

theorem getEntry_filterMapOrders_not_mem (g : WCOrder → Option ℕ) (l : List WCOrder)
    (k : ℕ) (h : k ∉ l.map (fun o => o.id)) :
    getEntry (l.filterMap (fun o => (g o).map (fun e => (o.id, e)))) k = none := by
  induction l with
  | nil => rfl
  | cons q rest ih =>
    have hqk : q.id ≠ k := fun he => h (by simp [he])
    have hrest : k ∉ rest.map (fun o => o.id) := fun hm => h (by simp [hm])
    cases hg : g q with
    | none =>
      simp only [List.filterMap_cons, hg, Option.map_none']
      exact ih hrest
    | some e =>
      simp only [List.filterMap_cons, hg, Option.map_some']
      unfold getEntry
      rw [find?_cons_neg (fun p => p.1 == k) (q.id, e) _ (by simpa using hqk)]
      exact ih hrest

theorem getEntry_filterMapOrders (g : WCOrder → Option ℕ) (l : List WCOrder)
    (o : WCOrder) (ho : o ∈ l) (hnd : (l.map (fun o => o.id)).Nodup) :
    getEntry (l.filterMap (fun o => (g o).map (fun e => (o.id, e)))) o.id = g o := by
  induction l with
  | nil => cases ho
  | cons q rest ih =>
    rw [List.map_cons, List.nodup_cons] at hnd
    rcases List.mem_cons.mp ho with rfl | hmem
    · cases hg : g o with
      | some e =>
        simp only [List.filterMap_cons, hg, Option.map_some']
        unfold getEntry
        rw [find?_cons_pos (fun p => p.1 == o.id) (o.id, e) _ (by simp)]
        simp [hg]
      | none =>
        simp only [List.filterMap_cons, hg, Option.map_none']
        exact getEntry_filterMapOrders_not_mem g rest o.id hnd.1
    · have hqo : q.id ≠ o.id := by
        intro he
        exact hnd.1 (he ▸ List.mem_map.mpr ⟨o, hmem, rfl⟩)
      cases hg : g q with
      | none =>
        simp only [List.filterMap_cons, hg, Option.map_none']
        exact ih hmem hnd.2
      | some e =>
        simp only [List.filterMap_cons, hg, Option.map_some']
        unfold getEntry
        rw [find?_cons_neg (fun p => p.1 == o.id) (q.id, e) _ (by simpa using hqo)]
        exact ih hmem hnd.2

theorem firstProductEvent_nil (items : List WCLineItem) :
    firstProductEvent [] items = none := by
  induction items with
  | nil => rfl
  | cons it rest ih =>
    cases hpid : it.product_id with
    | none =>
      simp only [firstProductEvent, hpid]
      exact ih
    | some p =>
      simp only [firstProductEvent, hpid]
      by_cases hp : p ≠ 0
      · simp only [if_pos hp, show getEntry ([] : List (ℕ × ℕ)) p = none from rfl]
        exact ih
      · simp only [if_neg hp]
        exact ih

theorem processOrder_none {m : List (ℕ × ℕ)} {order : WCOrder}
    (h : getEntry m order.id = none) : processOrder m order = none := by
  unfold processOrder
  rw [h]

theorem processOrder_some {m : List (ℕ × ℕ)} {order : WCOrder} {r : WPTicketPayment}
    (h : processOrder m order = some r) :
    getEntry m order.id = some r.wp_event_id ∧ r.wp_order_id = order.id := by
  unfold processOrder at h
  cases hg : getEntry m order.id with
  | none => rw [hg] at h; cases h
  | some e =>
    rw [hg] at h
    cases hli : order.line_items with
    | nil => rw [hli] at h; cases h
    | cons first rest =>
      rw [hli] at h
      simp only at h
      by_cases ht : (lineItemsTotals (first :: rest)).1 = 0
      · rw [if_pos ht] at h; cases h
      · rw [if_neg ht] at h
        have hr := Option.some.inj h
        subst hr
        exact ⟨rfl, rfl⟩

/-- Claim C7: event resolution for a fetched order batch tries attendee rows
first (they can never be overridden), applies product-metadata lookup (over
the distinct product ids of all fetched orders) only to orders the attendee
rows leave unmapped, and orders neither strategy resolves are skipped: no
payment record carries an unresolved order, processing is the same as if the
unresolved orders were absent, and no error is raised (the functions are
total). -/
theorem c7_order_event_resolution :
    (∀ (env : WooEnv) (uniqueIds : List ℕ) (orders : List WCOrder) (o : WCOrder) (e : ℕ),
        o.id ∈ uniqueIds → env.attendeeEventOf o.id = some e →
        getEntry (resolveOrderEventMap env uniqueIds orders) o.id = some e)
  ∧ (∀ (env : WooEnv) (uniqueIds : List ℕ) (orders : List WCOrder) (o : WCOrder),
        o ∈ orders → ((orders.map (fun o => o.id)).Nodup) →
        getEntry (fetchOrderEventMappingFromAttendees env uniqueIds) o.id = none →
        getEntry (resolveOrderEventMap env uniqueIds orders) o.id =
          firstProductEvent (fetchProductEventMapping env (orderProductIds orders))
            o.line_items)
  ∧ (∀ (orders : List WCOrder) (m : List (ℕ × ℕ)) (r : WPTicketPayment),
        r ∈ processOrders orders m →
        getEntry m r.wp_order_id = some r.wp_event_id)
  ∧ (∀ (orders : List WCOrder) (m : List (ℕ × ℕ)),
        processOrders orders m
          = processOrders (orders.filter (fun o => (getEntry m o.id).isSome)) m) := by
  refine ⟨?_, ?_, ?_, ?_⟩
  · intro env uniqueIds orders o e hmem hatt
    have hm0 : getEntry (fetchOrderEventMappingFromAttendees env uniqueIds) o.id
        = some e := by
      unfold fetchOrderEventMappingFromAttendees
      rw [getEntry_filterMapPairs env.attendeeEventOf uniqueIds o.id hmem]
      exact hatt
    simp only [resolveOrderEventMap]
    split
    · split
      · rw [getEntry_append_left (by rw [hm0]; rfl)]
        exact hm0
      · exact hm0
    · exact hm0
  · intro env uniqueIds orders o ho hnd hnone
    have hounm : o ∈ orders.filter
        (fun o => (getEntry (fetchOrderEventMappingFromAttendees env uniqueIds) o.id).isNone) := by
      rw [List.mem_filter]
      exact ⟨ho, by rw [hnone]; rfl⟩
    have hundnd : ((orders.filter
        (fun o => (getEntry (fetchOrderEventMappingFromAttendees env uniqueIds) o.id).isNone)).map
          (fun o => o.id)).Nodup :=
      (((List.filter_sublist orders).map (fun o => o.id)).nodup hnd)
    simp only [resolveOrderEventMap]
    rw [if_pos (List.ne_nil_of_mem hounm)]
    by_cases hpid : orderProductIds orders ≠ []
    · rw [if_pos hpid, getEntry_append_right hnone]
      exact getEntry_filterMapOrders
        (fun o' => firstProductEvent
          (fetchProductEventMapping env (orderProductIds orders)) o'.line_items)
        _ o hounm hundnd
    · rw [if_neg hpid, hnone]
      have hnil : orderProductIds orders = [] := by
        by_contra hc
        exact hpid hc
      rw [hnil]
      show _ = firstProductEvent (fetchProductEventMapping env []) o.line_items
      rw [show fetchProductEventMapping env [] = [] from rfl, firstProductEvent_nil]
  · intro orders m r hr
    rcases List.mem_filterMap.mp hr with ⟨order, _, hsome⟩
    rcases processOrder_some hsome with ⟨hg, hid⟩
    rw [hid]
    exact hg
  · intro orders m
    unfold processOrders
    induction orders with
    | nil => rfl
    | cons o rest ih =>
      by_cases ho : (getEntry m o.id).isSome = true
      · have hfil : List.filter (fun o => (getEntry m o.id).isSome) (o :: rest)
            = o :: List.filter (fun o => (getEntry m o.id).isSome) rest := by
          simp [List.filter_cons, ho]
        rw [hfil]
        simp only [List.filterMap_cons]
        cases hpo : processOrder m o <;> simp [hpo, ih]
      · have hnone : getEntry m o.id = none := by
          cases hg : getEntry m o.id
          · rfl
          · rw [hg] at ho; simp at ho
        have hfil : List.filter (fun o => (getEntry m o.id).isSome) (o :: rest)
            = List.filter (fun o => (getEntry m o.id).isSome) rest := by
          simp [List.filter_cons, hnone]
        rw [hfil]
        simp only [List.filterMap_cons, processOrder_none hnone]
        exact ih

/-- A world where order 1 is resolved by a cached attendee row to event 7
while product metadata would claim event 9: the attendee mapping must win. -/
def c7WitnessEnv : WooEnv where
  fetchOrder := fun _ => none
  attendeeEventOf := fun oid => if oid = 1 then some 7 else none
  productEventOf := fun _ => some 9

/-- Witness for claim C7: attendee-based resolution wins for order 1. -/
theorem c7_order_event_resolution_witness :
    getEntry (resolveOrderEventMap c7WitnessEnv [1]
      [{ id := 1, line_items := [{ id := 11, product_id := some 5 }] }]) 1 = some 7 :=
  c7_order_event_resolution.1 c7WitnessEnv [1]
    [{ id := 1, line_items := [{ id := 11, product_id := some 5 }] }]
    { id := 1, line_items := [{ id := 11, product_id := some 5 }] } 7
    (by decide) (by decide)

/-! ## Pagination helper (src/services/wpClient.ts, wpGetAllPages) -/

/-- One page response of the remote API.  `arr` is the bare-array shape,
whose only totals live in the `x-wp-total` / `x-wp-totalpages` response
headers when the server sends them; `obj` is the object shape with optional
`total` / `total_pages` body fields (`items = none` when no array-valued
field exists in the body). -/
inductive PageResp (α : Type) where
  | arr (items : List α) (hdrTotal : Option ℕ) (hdrTotalPages : Option ℕ)
  | obj (items : Option (List α)) (total : Option ℕ) (total_pages : Option ℕ)
  deriving Repr, DecidableEq

/-- The `totals` object of the result.  `total` mirrors the JavaScript
`totalItems` variable: it starts at 0 and is always present in the returned
object; `totalPages` is `undefined` exactly when the loop never determined a
page count (`Infinity`). -/
structure PaginationTotals where
  total : ℕ
  totalPages : Option ℕ
  deriving Repr, DecidableEq

/-- The result of `wpGetAllPages`. -/
structure PaginationResult (α : Type) where
  items : List α
  pagesFetched : ℕ
  totals : PaginationTotals
  deriving Repr, DecidableEq

/-- The `while (page <= totalPages)` guard; `none` is `Infinity`. -/
def pageWithinBound (page : ℕ) (totalPages : Option ℕ) : Bool :=
  match totalPages with
  | none => true
  | some t => decide (page ≤ t)

/-- The loop of `wpGetAllPages` with explicit state: current page, known
total page count (`none` = `Infinity`), last seen body total, accumulated
items.  For the array shape the header page count wins, else a page shorter
than `perPage` ends the loop after itself; for the object shape the body
`total_pages` and `total` fields update the state when present, and a body
without an array field reads as an empty page.  An empty page always breaks.
The JavaScript loop has no fuel; every theorem below supplies enough fuel to
reach the loop's own exit, so the exhaustion branch is never observed. -/
def wpGetAllPagesLoop {α : Type} (server : ℕ → PageResp α) (perPage : ℕ) :
    ℕ → ℕ → Option ℕ → ℕ → List α → PaginationResult α
  | 0, page, totalPages, totalItems, acc =>
    ⟨acc, page - 1, ⟨totalItems, totalPages⟩⟩
  | fuel + 1, page, totalPages, totalItems, acc =>
    if pageWithinBound page totalPages then
      match server page with
      | .arr items _hdrTotal hdrTotalPages =>
        let totalPages' :=
          match hdrTotalPages with
          | some t => some t
          | none => if items.length < perPage then some page else totalPages
        if items.length = 0 then ⟨acc, page - 1, ⟨totalItems, totalPages'⟩⟩
        else wpGetAllPagesLoop server perPage fuel (page + 1) totalPages' totalItems
          (acc ++ items)
      | .obj oitems total total_pages =>
        match oitems with
        | none => ⟨acc, page - 1, ⟨totalItems, totalPages⟩⟩
        | some items =>
          let totalPages' :=
            match total_pages with
            | some t => some t
            | none => totalPages
          let totalItems' :=
            match total with
            | some t => t
            | none => totalItems
          if items.length = 0 then ⟨acc, page - 1, ⟨totalItems', totalPages'⟩⟩
          else wpGetAllPagesLoop server perPage fuel (page + 1) totalPages' totalItems'
            (acc ++ items)
    else ⟨acc, page - 1, ⟨totalItems, totalPages⟩⟩

/-- `wpGetAllPages`: run the loop from page 1 with `per_page = 100`, no known
page count and a zero running total. -/
def wpGetAllPages {α : Type} (server : ℕ → PageResp α) (fuel : ℕ) : PaginationResult α :=
  wpGetAllPagesLoop server 100 fuel 1 none 0 []

theorem wpLoop_stop {α : Type} (server : ℕ → PageResp α) (fuel page : ℕ)
    (tp : Option ℕ) (ti : ℕ) (acc : List α) (h : pageWithinBound page tp = false) :
    wpGetAllPagesLoop server 100 (fuel + 1) page tp ti acc = ⟨acc, page - 1, ⟨ti, tp⟩⟩ := by
  simp only [wpGetAllPagesLoop]
  rw [if_neg (by simp [h])]

/-- A server answering in the bare-array shape where the page count comes
only from response headers and the item total only from the `x-wp-total`
header, which the source never reads. -/
def c9Server : ℕ → PageResp ℕ := fun p =>
  if p = 1 then PageResp.arr [10, 11, 12] (some 150) (some 1) else PageResp.arr [] none none

/-- Counterexample to claim C9 as stated: `c9Server` reports a total of 150
via the `x-wp-total` header of its single page, yet the result's observed
total is 0 — a number, not left unset — because the source only ever reads
body `total` fields. -/
theorem c9_counterexample :
    (wpGetAllPages c9Server 10).totals.total = 0
      ∧ (wpGetAllPages c9Server 10).totals.total ≠ 150
      ∧ (wpGetAllPages c9Server 10).items = [10, 11, 12] := by
  decide

theorem wpLoopA (f : ℕ → List ℕ) (k : ℕ) :
    ∀ (fuel page ti : ℕ) (acc : List ℕ), 1 ≤ page → page ≤ k → k - page + 1 < fuel →
    (∀ p, page ≤ p → p < k → (f p).length = 100) → (f k).length < 100 →
    wpGetAllPagesLoop (fun p => PageResp.arr (f p) none none) 100 fuel page none ti acc
      = ⟨acc ++ ((List.range' page (k - page + 1)).map f).flatten,
         if f k = [] then k - 1 else k, ⟨ti, some k⟩⟩ := by
  intro fuel
  induction fuel with
  | zero =>
    intro page ti acc h1 h2 h3 hfull hlast
    omega
  | succ fuel ih =>
    intro page ti acc h1 h2 h3 hfull hlast
    simp only [wpGetAllPagesLoop]
    rw [if_pos (show pageWithinBound page none = true from rfl)]
    by_cases hpk : page = k
    · subst hpk
      rw [if_pos hlast]
      have hkk : page - page + 1 = 1 := by omega
      by_cases hemp : f page = []
      · rw [if_pos (by simp [hemp])]
        rw [hkk, List.range'_one, List.map_cons, List.map_nil, List.flatten_cons,
          List.flatten_nil, hemp]
        simp [hemp]
      · rw [if_neg (by simpa using hemp)]
        obtain ⟨fuel', rfl⟩ : ∃ m, fuel = m + 1 := ⟨fuel - 1, by omega⟩
        rw [wpLoop_stop _ _ _ _ _ _ (by simp [pageWithinBound])]
        rw [hkk, List.range'_one, List.map_cons, List.map_nil, List.flatten_cons,
          List.flatten_nil, List.append_nil]
        simp [hemp]
    · have hlt : page < k := lt_of_le_of_ne h2 hpk
      have hfp : (f page).length = 100 := hfull page le_rfl hlt
      rw [if_neg (by omega : ¬ (f page).length < 100)]
      have hne : ¬ (f page).length = 0 := by
        rw [hfp]
        omega
      rw [if_neg hne]
      rw [ih (page + 1) ti (acc ++ f page) (by omega) (by omega) (by omega)
        (fun p hp hpk2 => hfull p (by omega) hpk2) hlast]
      have hsplit : k - page + 1 = (k - (page + 1) + 1) + 1 := by omega
      rw [hsplit]
      simp [List.range'_succ, List.append_assoc]

theorem wpLoopB (f : ℕ → List ℕ) (t : ℕ → ℕ) (T : ℕ) :
    ∀ (fuel page ti : ℕ) (acc : List ℕ) (tp : Option ℕ),
    1 ≤ page → page ≤ T → T - page + 1 < fuel → pageWithinBound page tp = true →
    (∀ p, page ≤ p → p ≤ T → f p ≠ []) →
    wpGetAllPagesLoop (fun p => PageResp.obj (some (f p)) (some (t p)) (some T))
        100 fuel page tp ti acc
      = ⟨acc ++ ((List.range' page (T - page + 1)).map f).flatten, T, ⟨t T, some T⟩⟩ := by
  intro fuel
  induction fuel with
  | zero =>
    intro page ti acc tp h1 h2 h3 hb hne
    omega
  | succ fuel ih =>
    intro page ti acc tp h1 h2 h3 hb hne
    simp only [wpGetAllPagesLoop]
    rw [if_pos hb]
    rw [if_neg (by simpa using hne page le_rfl h2)]
    by_cases hpT : page = T
    · subst hpT
      obtain ⟨fuel', rfl⟩ : ∃ m, fuel = m + 1 := ⟨fuel - 1, by omega⟩
      rw [wpLoop_stop _ _ _ _ _ _ (by simp [pageWithinBound])]
      have hkk : page - page + 1 = 1 := by omega
      rw [hkk, List.range'_one, List.map_cons, List.map_nil, List.flatten_cons,
        List.flatten_nil, List.append_nil]
      simp
    · have hlt : page < T := lt_of_le_of_ne h2 hpT
      rw [ih (page + 1) (t page) (acc ++ f page) (some T) (by omega) (by omega) (by omega)
        (by simp [pageWithinBound]; omega) (fun p hp hpT2 => hne p (by omega) hpT2)]
      have hsplit : T - page + 1 = (T - (page + 1) + 1) + 1 := by omega
      rw [hsplit]
      simp [List.range'_succ, List.append_assoc]

/-- Claim C9 (amended): the pagination helper accumulates every fetched page.
When the protocol exposes no totals at all (bare-array shape, no headers) the
loop stops with the first page shorter than the page size, the observed total
is 0 (set, not unset) and the page count recorded is the stopping page.  When
object-shaped responses expose body totals, the loop walks exactly the
reported `total_pages` pages and the observed total is the last page's
reported body total.  Header-reported totals are never reflected
(`c9_counterexample`). -/
theorem c9_pagination_amended :
    (∀ (f : ℕ → List ℕ) (k fuel : ℕ), 1 ≤ k → k + 1 < fuel →
        (∀ p, 1 ≤ p → p < k → (f p).length = 100) → (f k).length < 100 →
        wpGetAllPages (fun p => PageResp.arr (f p) none none) fuel
          = ⟨((List.range' 1 k).map f).flatten,
             if f k = [] then k - 1 else k, ⟨0, some k⟩⟩)
  ∧ (∀ (f : ℕ → List ℕ) (t : ℕ → ℕ) (T fuel : ℕ), 1 ≤ T → T + 1 < fuel →
        (∀ p, 1 ≤ p → p ≤ T → f p ≠ []) →
        wpGetAllPages (fun p => PageResp.obj (some (f p)) (some (t p)) (some T)) fuel
          = ⟨((List.range' 1 T).map f).flatten, T, ⟨t T, some T⟩⟩) := by
  constructor
  · intro f k fuel h1 h2 hfull hlast
    unfold wpGetAllPages
    rw [wpLoopA f k fuel 1 0 [] le_rfl h1 (by omega) (fun p hp hpk => hfull p hp hpk) hlast]
    have : k - 1 + 1 = k := by omega
    rw [this, List.nil_append]
  · intro f t T fuel h1 h2 hne
    unfold wpGetAllPages
    rw [wpLoopB f t T fuel 1 0 [] none le_rfl h1 (by omega) rfl hne]
    have : T - 1 + 1 = T := by omega
    rw [this, List.nil_append]

/-- Witness for claim C9 (amended): a one-page object-shaped protocol whose
body reports total 5. -/
theorem c9_pagination_amended_witness :
    wpGetAllPages (fun p => PageResp.obj (some ((fun _ => [1]) p))
        (some ((fun _ => 5) p)) (some 1)) 3
      = ⟨[1], 1, ⟨5, some 1⟩⟩ := by
  have h := c9_pagination_amended.2 (fun _ => ([1] : List ℕ)) (fun _ => 5) 1 3
    (by decide) (by decide) (fun p _ _ => List.cons_ne_nil 1 [])
  exact h.trans (by decide)

/-! ## Sync orchestrator (src/services/wp.ts, syncEvents) -/

/-- A raw event as consumed by the event-list processing.  `start` stands for
the parsed start date (the source assembles `start_datetime` from
`start_date_details` or `start_date` and compares `new Date(...)` values);
`cost` collapses `cost_details.values[0]` / `cost`; `capacity` collapses
`capacity || global_stock_cap || null` after truthiness. -/
structure RawEvent where
  id : ℕ
  title : String := ""
  description : String := ""
  start : ℕ := 0
  cost : Option ℚ := none
  capacity : Option ℕ := none
  deriving Repr, DecidableEq

/-- One time-series point of the per-event snapshot ring buffer. -/
structure AttendeeSnapshot where
  capturedUtc : ℕ
  totalOnline : ℕ
  deriving Repr, DecidableEq

/-- `StorageService.addSnapshot`: push, then shift the oldest entry once the
length exceeds 400. -/
def addSnapshot (l : List AttendeeSnapshot) (capturedUtc totalOnline : ℕ) :
    List AttendeeSnapshot :=
  let pushed := l ++ [⟨capturedUtc, totalOnline⟩]
  if pushed.length > 400 then pushed.drop 1 else pushed

/-- JavaScript `a || b` on optional timestamps (empty string is falsy, the
absent field too). -/
def jsOrOptNat (a b : Option ℕ) : Option ℕ :=
  match a with
  | some x => some x
  | none => b

/-- The durable cache of the store plus the module-level single-flight flag
and a count of remote requests issued (events-list, per-event attendee and
order fetches), which expresses "performs no remote fetch". -/
structure WorldState where
  isSyncing : Bool := false
  events : List WPEvent := []
  attendeesMap : ℕ → List AttendeeRecord := fun _ => []
  syncStateMap : ℕ → SyncState := fun _ => {}
  snapshotsMap : ℕ → List AttendeeSnapshot := fun _ => []
  globalSync : GlobalSyncState := {}
  payments : List WPTicketPayment := []
  remoteFetchCount : ℕ := 0

/-- The `{ success, message }` result of `syncEvents`. -/
structure SyncOutcome where
  success : Bool
  message : String
  deriving Repr, DecidableEq

/-- The collaborators of one `syncEvents` invocation.  `eventsList` is the
outcome of `fetchEventsList`; `attendeesFor eventId after` the outcome of
`fetchAttendeesForEvent` (mapped records plus the observed total);
`todayBucharest` / `hourBucharest` / `nowUtc` the clock projections of the
scheduler; `classify` stands for `classifyEvent`, whose keyword-table module
is not among the sources; `extract` for the deterministic description
extractor (a separate module, untouched by the claims); `freshId` for the
`Math.random` internal id given to a newly seen event; `woo` for the
reconciler's collaborators. -/
structure SyncEnv where
  eventsList : Except String (List RawEvent)
  attendeesFor : ℕ → Option ℕ → Except String (List AttendeeRecord × Option ℕ)
  nowUtc : ℕ
  todayBucharest : String
  hourBucharest : ℕ
  classify : String → String → String
  extract : String → List String × List String
  freshId : ℕ → String
  woo : WooEnv

/-- The per-raw-event processing of `syncEvents`: keep the internal id and
the stored classification of an already-known event (`existing?.event_type
|| classifyEvent(...)`, `existing?.wine_focus || ""`), run the extractor,
and map the raw fields. -/
def processRawEvent (env : SyncEnv) (existingEvents : List WPEvent) (raw : RawEvent) :
    WPEvent :=
  let existing := existingEvents.find? (fun e => e.wp_event_id == raw.id)
  let extracted := env.extract raw.description
  { id := match existing with
      | some e => e.id
      | none => env.freshId raw.id,
    wp_event_id := raw.id,
    title := raw.title,
    description := raw.description,
    start_datetime := raw.start,
    price := some (raw.cost.getD 0),
    event_type := firstTruthy (match existing with
      | some e => e.event_type
      | none => "") (env.classify raw.title raw.description),
    wine_focus := match existing with
      | some e => e.wine_focus
      | none => "",
    capacity := raw.capacity,
    last_synced_at := env.nowUtc,
    extracted_wines := extracted.1,
    extracted_menu := extracted.2 }

/-- One event of the daily full-sync loop: fetch the complete attendee set,
overwrite the per-event cache, record full-sync state and observed total,
append a snapshot; a per-event failure is caught and logged and the loop
continues. -/
def fullSyncStep (env : SyncEnv) (st : WorldState) (ev : WPEvent) : WorldState :=
  let st := { st with remoteFetchCount := st.remoteFetchCount + 1 }
  match env.attendeesFor ev.wp_event_id none with
  | .error _ => st
  | .ok (attendees, total) =>
    let st := { st with attendeesMap := fun k =>
      if k = ev.wp_event_id then attendees else st.attendeesMap k }
    let upd : SyncStateUpdate :=
      { lastFullSyncUtc := some (some env.nowUtc), lastSeenTotal := some total }
    let st := { st with syncStateMap := updateSyncState st.syncStateMap ev.wp_event_id upd }
    { st with snapshotsMap := fun k =>
      if k = ev.wp_event_id then addSnapshot (st.snapshotsMap k) env.nowUtc attendees.length
      else st.snapshotsMap k }

/-- One event of the delta-sync loop: fetch attendees modified since the last
delta-or-full timestamp, merge them keyed by attendee id, snapshot when
anything arrived, and record the delta state; failures are caught per
event. -/
def deltaSyncStep (env : SyncEnv) (st : WorldState) (ev : WPEvent) : WorldState :=
  let state := st.syncStateMap ev.wp_event_id
  let lastSync := jsOrOptNat state.lastDeltaSyncUtc state.lastFullSyncUtc
  let st := { st with remoteFetchCount := st.remoteFetchCount + 1 }
  match env.attendeesFor ev.wp_event_id lastSync with
  | .error _ => st
  | .ok (attendees, total) =>
    let st :=
      if attendees.length > 0 then
        let merged := upsertAttendees (st.attendeesMap ev.wp_event_id) attendees
        let st := { st with attendeesMap := fun k =>
          if k = ev.wp_event_id then merged else st.attendeesMap k }
        { st with snapshotsMap := fun k =>
          if k = ev.wp_event_id then addSnapshot (st.snapshotsMap k) env.nowUtc merged.length
          else st.snapshotsMap k }
      else st
    let upd : SyncStateUpdate :=
      { lastDeltaSyncUtc := some (some env.nowUtc), lastSeenTotal := some total }
    { st with syncStateMap := updateSyncState st.syncStateMap ev.wp_event_id upd }

/-- `ninetyDaysAgo`, as milliseconds (the source uses calendar-day
arithmetic; the difference never matters to the claims below). -/
def ninetyDaysMs : ℕ := 90 * 24 * 60 * 60 * 1000

/-- `syncEvents` from wp.ts — the spec's `runSync`.  The busy check and flag
set come first; an events-list failure lands in the catch block, which
clears the flag and surfaces `{ success: false, message }`; otherwise the
event list is processed and saved, the scheduler decides full / delta /
nothing, the branch runs its per-event loop, order ids of all cached
attendees of relevant events are collected, and the reconciler is invoked on
them; both exits clear the flag. -/
def syncEvents (env : SyncEnv) (s : WorldState) : WorldState × SyncOutcome :=
  if s.isSyncing then (s, ⟨false, "Sync in progress..."⟩)
  else
    let s0 := { s with isSyncing := true }
    let globalState := s0.globalSync
    let today := env.todayBucharest
    match env.eventsList with
    | .error msg =>
      ({ s0 with isSyncing := false, remoteFetchCount := s0.remoteFetchCount + 1 },
        ⟨false, "Eroare sync: " ++ msg⟩)
    | .ok rawEvents =>
      let s1 := { s0 with remoteFetchCount := s0.remoteFetchCount + 1 }
      let processedEvents := rawEvents.map (processRawEvent env s1.events)
      let s2 := { s1 with events := processedEvents }
      let runFull := shouldRunDailyFullSync globalState.lastDailyFullSyncDate today
        env.hourBucharest
      let runDelta := shouldRunDeltaSync globalState.lastDeltaSyncRunUtc env.nowUtc
      let isFirstRun := decide (globalState.lastDailyFullSyncDate = "")
      let ninetyDaysAgo := env.nowUtc - ninetyDaysMs
      let relevantEvents := processedEvents.filter
        (fun e => decide (ninetyDaysAgo ≤ e.start_datetime))
      let upcomingEvents := processedEvents.filter
        (fun e => decide (env.nowUtc ≤ e.start_datetime))
      let s3 :=
        if runFull || isFirstRun then
          let sFull := relevantEvents.foldl (fullSyncStep env) s2
          let gUpd : GlobalSyncStateUpdate :=
            { lastDailyFullSyncDate := some today,
              lastDeltaSyncRunUtc := some (some env.nowUtc) }
          { sFull with globalSync := updateGlobalSyncState sFull.globalSync gUpd }
        else if runDelta then
          let sDelta := upcomingEvents.foldl (deltaSyncStep env) s2
          let gUpd : GlobalSyncStateUpdate :=
            { lastDeltaSyncRunUtc := some (some env.nowUtc) }
          { sDelta with globalSync := updateGlobalSyncState sDelta.globalSync gUpd }
        else s2
      let orderIdsToSync := jsSetDedup (List.flatten (relevantEvents.map (fun ev =>
        (s3.attendeesMap ev.wp_event_id).filterMap (fun a =>
          match a.orderId with
          | some o => if o = 0 then none else some o
          | none => none))))
      let s4 :=
        if orderIdsToSync ≠ [] then
          let r := syncPaymentsForOrders env.woo s3.payments orderIdsToSync false
          { s3 with payments := r.store
                    remoteFetchCount := s3.remoteFetchCount + r.fetchedOrderCount }
        else s3
      ({ s4 with isSyncing := false }, ⟨true, "Sync complet."⟩)

/-- Claim C5: a call made while a sync is in progress returns immediately
with the busy result and changes nothing — no remote fetch, no cache write
(the whole state is returned untouched) — and a call that does acquire the
flag always exits, on success and on failure alike, with the flag
cleared. -/
theorem c5_single_flight :
    (∀ (env : SyncEnv) (s : WorldState), s.isSyncing = true →
        syncEvents env s = (s, ⟨false, "Sync in progress..."⟩))
  ∧ (∀ (env : SyncEnv) (s : WorldState), s.isSyncing = false →
        ((syncEvents env s).1).isSyncing = false) := by
  constructor
  · intro env s h
    simp [syncEvents, h]
  · intro env s h
    simp only [syncEvents, h]
    cases henv : env.eventsList <;> simp [henv]

/-- Claim C8: when the event-list fetch fails, the whole invocation is
aborted — the cache (events, attendees, sync state, snapshots, global state,
payments) is exactly as before, no attendee sync, snapshot, sync-state
update or payment reconciliation happened — the failure is surfaced as
`{ success: false, message }`, and the single-flight flag is released. -/
theorem c8_event_list_failure_aborts (env : SyncEnv) (s : WorldState) (msg : String)
    (hidle : s.isSyncing = false) (hfail : env.eventsList = Except.error msg) :
    (syncEvents env s).1.events = s.events
      ∧ (syncEvents env s).1.attendeesMap = s.attendeesMap
      ∧ (syncEvents env s).1.syncStateMap = s.syncStateMap
      ∧ (syncEvents env s).1.snapshotsMap = s.snapshotsMap
      ∧ (syncEvents env s).1.globalSync = s.globalSync
      ∧ (syncEvents env s).1.payments = s.payments
      ∧ (syncEvents env s).1.isSyncing = false
      ∧ (syncEvents env s).2 = ⟨false, "Eroare sync: " ++ msg⟩ := by
  simp [syncEvents, hidle, hfail]

/-- A quiet world for witnesses: an empty event list, empty attendee pages,
no orders. -/
def trivialSyncEnv : SyncEnv where
  eventsList := Except.ok []
  attendeesFor := fun _ _ => Except.ok ([], none)
  nowUtc := 0
  todayBucharest := "2026-10-11"
  hourBucharest := 12
  classify := fun _ _ => "altul"
  extract := fun _ => ([], [])
  freshId := fun _ => "x"
  woo := ⟨fun _ => none, fun _ => none, fun _ => none⟩

/-- Witness for claim C5: the busy path at a concrete world. -/
theorem c5_single_flight_witness :
    syncEvents trivialSyncEnv { isSyncing := true }
      = ({ isSyncing := true }, ⟨false, "Sync in progress..."⟩) :=
  c5_single_flight.1 trivialSyncEnv { isSyncing := true } rfl

/-- The quiet world with a failing events endpoint. -/
def failingSyncEnv : SyncEnv :=
  { trivialSyncEnv with eventsList := Except.error "boom" }

/-- Witness for claim C8: the failing events fetch at a concrete world. -/
theorem c8_event_list_failure_aborts_witness :
    (syncEvents failingSyncEnv {}).2 = ⟨false, "Eroare sync: boom"⟩ :=
  ((c8_event_list_failure_aborts failingSyncEnv {} ("boom") rfl rfl).2.2.2.2.2.2.2).trans
    (by decide)

end CorksSIE
